import Mathlib

/-!
Verification of the host-orchestrated batch execution pipeline of
faiss/gpu/GpuIndex.cu (GpuIndex: add paging, search paging, and the
overlapped pinned-buffer transfer pipeline).

The definitions below are a shallow embedding of GpuIndex.cu.  Machine
integers (idx_t, int64_t) are modelled as Int; the external search
implementation (the virtual searchImpl_) is a parameter impl mapping a
device-resident batch of queries to their per-row results; the external add
implementation (addImpl_) is modelled from the spec as increasing ntotal by
the number of vectors it is given.  Buffers are Lean lists; an output
region of row-results is a map from row index to an optional row value.
Loops are modelled with explicit fuel (structural recursion); a run that
exhausts its fuel returns none, which models source-level divergence.
-/

namespace FaissGpu

/-- Error taxonomy of the spec (section 7); FAISS_THROW sites map onto it. -/
inductive FaissError where
  | notTrained
  | unsupportedEncoding
  | invalidK
  | allocationFailure
  | notImplemented
deriving DecidableEq, Repr

/-- Modelled from the spec: the element-encoding tag (NumericType) is declared
outside the core source.  The spec names the supported set as 32-bit float,
16-bit float and 8-bit signed integer, and speaks of tags outside that set;
bfloat16 stands for such an unsupported tag. -/
inductive NumericType where
  | float32
  | float16
  | int8
  | bfloat16
deriving DecidableEq, Repr

/-- Modelled from the spec: element size in bytes for an encoding tag
(get_numeric_type_size is declared outside the core source). -/
def get_numeric_type_size : NumericType → Int
  | .float32 => 4
  | .float16 => 2
  | .int8 => 1
  | .bfloat16 => 2

/-- The dispatch arms present at every call site of GpuIndex.cu:
Float32, Float16 and Int8 are the tags with a typed arm. -/
def supportedNumericType : NumericType → Bool
  | .float32 => true
  | .float16 => true
  | .int8 => true
  | _ => false

/-- Default CPU search size for which we use paged copies (256 MiB). -/
def kMinPageSize : Int := 256 * 1024 * 1024

/-- Size above which we page copies from the CPU to GPU without pinned
memory (256 MiB). -/
def kNonPinnedPageSize : Int := 256 * 1024 * 1024

/-- Default size for which we page add or search (256 MiB). -/
def kAddPageSize : Int := 256 * 1024 * 1024

/-- Maximum number of vectors to consider per page of add or search. -/
def kAddVecSize : Int := 512 * 1024

/-- Smaller search tile bound (32 * 1024 vectors). -/
def kSearchVecSize : Int := 32 * 1024

/-- Device capability configuration: the fields of GpuIndexConfig consumed by
the paging logic, plus the device property (compute capability major version)
read through getDeviceProperties. -/
structure GpuIndexConfig where
  use_cuvs : Bool
  major : Int
deriving DecidableEq, Repr

/-- should_use_cuvs from GpuIndex.cu: the alternative backend is eligible when
the device compute capability major version is at least 7 and the backend is
requested. -/
def should_use_cuvs (config : GpuIndexConfig) : Bool :=
  if config.major < 7 then false else config.use_cuvs

/-- Modelled from the spec: the mirror metadata struct (a plain faiss::Index
host-side representation) carries exactly the five Index Metadata fields.
The metric argument is a scalar whose value is only ever copied here, so it
is modelled by its bit pattern as an Int; the metric type likewise by its
enum tag. -/
structure IndexMeta where
  d : Int
  metric_type : Int
  metric_arg : Int
  ntotal : Int
  is_trained : Bool
deriving DecidableEq, Repr

/-- The state of one GpuIndex instance: the inherited faiss::Index metadata
fields together with the immutable device configuration and the mutable
search paging threshold minPagedSize_. -/
structure GpuIndexState where
  d : Int
  metric_type : Int
  metric_arg : Int
  ntotal : Int
  is_trained : Bool
  config : GpuIndexConfig
  minPagedSize : Int
deriving DecidableEq, Repr

/-- GpuIndex::copyFrom: overwrite the five metadata fields from the mirror;
configuration and paging threshold are untouched and no device interaction
happens (the source body is five plain field assignments). -/
def copyFrom (g : GpuIndexState) (m : IndexMeta) : GpuIndexState :=
  { g with
    d := m.d
    metric_type := m.metric_type
    metric_arg := m.metric_arg
    ntotal := m.ntotal
    is_trained := m.is_trained }

/-- GpuIndex::copyTo: write the five metadata fields into the mirror object
(every field of the mirror is overwritten); no device interaction. -/
def copyTo (g : GpuIndexState) (_m : IndexMeta) : IndexMeta :=
  { d := g.d
    metric_type := g.metric_type
    metric_arg := g.metric_arg
    ntotal := g.ntotal
    is_trained := g.is_trained }

/-- Modelled from the spec: validateKSelect (declared in impl/IndexUtils, not
part of the core source) fails with InvalidK if k is zero, negative, or
exceeds the maximum supported by the active selection backend; maxK is that
externally supplied capacity. -/
def validateKSelect (k maxK : Int) : Bool :=
  decide (0 < k ∧ k ≤ maxK)

/-- One invocation of the external add implementation addImpl_: the number of
vectors, the offset (in vectors) of its input inside the caller batch, and
the identifier list staged for it (none when a null pointer is passed). -/
structure AddImplCall where
  n : Int
  xOff : Int
  ids : Option (List Int)
deriving DecidableEq, Repr

/-- GpuIndex::addPage_: dispatch on the encoding, stage the page and its n
identifiers on the device (content-preserving, modelled as identity), and
invoke addImpl_ once.  The ntotal increase is the addImpl_ contract,
modelled from the spec: on success the total count grows by the number of
vectors given to the implementation. -/
def addPage (st : GpuIndexState) (n : Int) (xOff : Int) (nt : NumericType)
    (ids : Option (List Int)) :
    Except FaissError (GpuIndexState × List AddImplCall) :=
  match nt with
  | .float32 | .float16 | .int8 =>
      .ok ({ st with ntotal := st.ntotal + n },
           [{ n := n, xOff := xOff, ids := ids.map (fun l => l.take n.toNat) }])
  | _ => .error .unsupportedEncoding

/-- The tile size of GpuIndex::addPaged_: how many vectors fit into
kAddPageSize, clamped to at least one vector, at most the batch and at most
kSearchVecSize. -/
def addTileSize (n d s : Int) : Int :=
  min (min n (max (kAddPageSize / (d * s)) 1)) kSearchVecSize

/-- The tiling loop of GpuIndex::addPaged_: from offset i, process
min t (n - i) vectors per tile and advance by t.  Fuel-structural; none
models a non-terminating source loop (only reachable with t below 1). -/
def addPagedLoop (n t : Int) (nt : NumericType) (ids : Option (List Int)) :
    Nat → GpuIndexState → Int →
    Option (Except FaissError (GpuIndexState × List AddImplCall))
  | 0, st, i => if i < n then none else some (.ok (st, []))
  | fuel + 1, st, i =>
    if i < n then
      let curNum := min t (n - i)
      match addPage st curNum i nt (ids.map (fun l => l.drop i.toNat)) with
      | .error e => some (.error e)
      | .ok (st1, calls) =>
        match addPagedLoop n t nt ids fuel st1 (i + t) with
        | none => none
        | some (.error e) => some (.error e)
        | some (.ok (st2, rest)) => some (.ok (st2, calls ++ rest))
    else some (.ok (st, []))

/-- GpuIndex::addPaged_: nothing to do for a non-positive count; dispatch on
the encoding (unsupported tags fail); tile when the alternative backend is
not in use and the batch exceeds the byte or vector-count threshold,
otherwise add the batch as a single page. -/
def addPaged (st : GpuIndexState) (n : Int) (nt : NumericType)
    (ids : Option (List Int)) :
    Option (Except FaissError (GpuIndexState × List AddImplCall)) :=
  if n ≤ 0 then some (.ok (st, []))
  else if supportedNumericType nt then
    let s := get_numeric_type_size nt
    let totalSize := n * st.d * s
    if should_use_cuvs st.config = false ∧
        (kAddPageSize < totalSize ∨ kAddVecSize < n) then
      addPagedLoop n (addTileSize n st.d s) nt ids n.toNat st 0
    else some (addPage st n 0 nt ids)
  else some (.error .unsupportedEncoding)

/-- GpuIndex::add_with_ids: requires a trained index; n equal to zero is a
no-op; when no identifiers are passed and the implementation requires them
(addImplRequiresIDs_, a virtual hook modelled as the parameter requiresIds),
sequential identifiers starting at the current total count are generated. -/
def add_with_ids (st : GpuIndexState) (n : Int) (nt : NumericType)
    (ids : Option (List Int)) (requiresIds : Bool) :
    Option (Except FaissError (GpuIndexState × List AddImplCall)) :=
  if st.is_trained = false then some (.error .notTrained)
  else if n = 0 then some (.ok (st, []))
  else
    let effIds : Option (List Int) :=
      match ids with
      | some l => some l
      | none =>
        if requiresIds then
          some ((List.range n.toNat).map (fun i : Nat => st.ntotal + (i : Int)))
        else none
    addPaged st n nt effIds

/-- GpuIndex::add: passes a null identifier pointer to add_with_ids. -/
def add (st : GpuIndexState) (n : Int) (nt : NumericType)
    (requiresIds : Bool) :
    Option (Except FaissError (GpuIndexState × List AddImplCall)) :=
  add_with_ids st n nt none requiresIds

/-- Concatenation of the identifier lists handed to successive addImpl_
invocations (a call with a null pointer contributes nothing). -/
def idsFlat : List AddImplCall → List Int
  | [] => []
  | c :: rest => c.ids.getD [] ++ idsFlat rest

/-!  Search path.  A query batch is a list of rows (one element per vector);
the external searchImpl_ is a parameter impl taking the device-resident rows
of one invocation to the corresponding result rows (each result row packs
the k distances and k labels for one query).  The caller-owned output region
is a map from row index to an optional result row; searchImpl_ writes the
rows of its slice at the slice offset.  Each searchImpl_ invocation is also
recorded in a trace as the pair (output row offset, number of rows). -/

/-- The sub-slice of a row list starting at row start with len rows
(pointer arithmetic x + start * d together with an extent of len vectors). -/
def slice {Q : Type} (x : List Q) (start len : Int) : List Q :=
  (x.drop start.toNat).take len.toNat

/-- Write the rows vals into the output region at offset start (the effect of
an implementation invocation on an output slice narrowed to start). -/
def writeRows {R : Type} (out : Int → Option R) (start : Int) (vals : List R) :
    Int → Option R :=
  fun i =>
    if start ≤ i ∧ i < start + (vals.length : Int) then vals[(i - start).toNat]?
    else out i

/-- Replay a trace of implementation invocations (offset, count) against an
output region: each entry writes the results of the corresponding input
slice at its offset. -/
def applyCalls {Q R : Type} (impl : List Q → List R) (x : List Q)
    (out : Int → Option R) (calls : List (Int × Int)) : Int → Option R :=
  calls.foldl (fun acc pc => writeRows acc pc.1 (impl (slice x pc.1 pc.2))) out

/-- GpuIndex::searchNonPaged_: dispatch on the encoding (unsupported tags
fail), stage the n query rows on the device (content-preserving) and invoke
searchImpl_ once, writing n result rows at the given output offset. -/
def searchNonPaged {Q R : Type} (impl : List Q → List R) (nt : NumericType)
    (n : Int) (xs : List Q) (out : Int → Option R) (outStart : Int) :
    Except FaissError ((Int → Option R) × List (Int × Int)) :=
  match nt with
  | .float32 | .float16 | .int8 =>
      .ok (writeRows out outStart (impl (xs.take n.toNat)), [(outStart, n)])
  | _ => .error .unsupportedEncoding

/-- Modelled from the spec: utils::nextHighestPowerOf2 (declared in
utils/StaticUtils.h, not part of the core source) rounds its argument up to
the next highest power of two (the least power of two strictly above it). -/
def nextHighestPowerOf2 (v : Int) : Int :=
  (2 : Int) ^ Nat.size v.toNat

/-- The buffered page size of GpuIndex::searchFromCpuPaged_: half the pinned
staging capacity divided by the byte size of one vector. -/
def pageSizeInVecs (pinnedSize s d : Int) : Int :=
  (pinnedSize / 2) / (s * d)

/-- The sequential unbuffered paging loop of GpuIndex::searchFromCpuPaged_:
page the batch with a fixed step, pushing each page through
searchNonPaged_.  The source dispatch inside this loop has arms only for the
supported encodings and no failing arm, so a page with an unsupported tag is
skipped.  Fuel-structural; none models a non-terminating source loop (only
reachable with a step below 1). -/
def searchSeqLoop {Q R : Type} (impl : List Q → List R) (nt : NumericType)
    (n batchSize : Int) (x : List Q) :
    Nat → (Int → Option R) → Int →
    Option (Except FaissError ((Int → Option R) × List (Int × Int)))
  | 0, out, cur => if cur < n then none else some (.ok (out, []))
  | fuel + 1, out, cur =>
    if cur < n then
      let num := min batchSize (n - cur)
      if supportedNumericType nt then
        match searchNonPaged impl nt num (slice x cur num) out cur with
        | .error e => some (.error e)
        | .ok (out1, calls) =>
          match searchSeqLoop impl nt n batchSize x fuel out1 (cur + batchSize) with
          | none => none
          | some (.error e) => some (.error e)
          | some (.ok (out2, rest)) => some (.ok (out2, calls ++ rest))
      else searchSeqLoop impl nt n batchSize x fuel out (cur + batchSize)
    else some (.ok (out, []))

/-!  The overlapped pinned-buffer pipeline.  Two pinned staging buffers and
two device buffers are reused in ping-pong fashion; three cursors cur1
(host to pinned copy), cur2 (pinned to device transfer) and cur3 (device
compute) walk the batch.  Completion events order reuse of the buffers; in
this single-caller model the event waits have no observable effect beyond
that ordering, so the state keeps the cursors, the buffer selectors, the
buffer contents, the output region and the invocation trace. -/

/-- The loop state of the pipeline in GpuIndex::searchFromCpuPaged_.  Buffer
selectors are Bool (false for index 0, true for index 1). -/
structure PipeState (Q R : Type) where
  cur1 : Int
  cur1BufIndex : Bool
  cur2 : Int
  cur2BufIndex : Bool
  cur3 : Int
  cur3BufIndex : Bool
  bufPinned0 : List Q
  bufPinned1 : List Q
  bufGpu0 : List Q
  bufGpu1 : List Q
  out : Int → Option R
  trace : List (Int × Int)

/-- Contents of the selected pinned staging buffer. -/
def getPinned {Q R : Type} (st : PipeState Q R) (b : Bool) : List Q :=
  if b then st.bufPinned1 else st.bufPinned0

/-- Overwrite the selected pinned staging buffer. -/
def setPinned {Q R : Type} (st : PipeState Q R) (b : Bool) (v : List Q) :
    PipeState Q R :=
  if b then { st with bufPinned1 := v } else { st with bufPinned0 := v }

/-- Contents of the selected device buffer. -/
def getGpu {Q R : Type} (st : PipeState Q R) (b : Bool) : List Q :=
  if b then st.bufGpu1 else st.bufGpu0

/-- Overwrite the selected device buffer. -/
def setGpu {Q R : Type} (st : PipeState Q R) (b : Bool) (v : List Q) :
    PipeState Q R :=
  if b then { st with bufGpu1 := v } else { st with bufGpu0 := v }

/-- Stage 2 of a pipeline iteration: if a pinned page is pending (cur2 is
neither the initial -1 nor past the end), wait for the previous execution on
the paired device buffer, asynchronously copy min p (n - cur2) vectors from
the pinned buffer to the device buffer, record the completion event, hand
the page to the compute cursor (cur3 becomes cur2), advance cur2 and flip
its buffer selector. -/
def stageTransfer {Q R : Type} (n p : Int) (st : PipeState Q R) :
    PipeState Q R :=
  if st.cur2 ≠ -1 ∧ st.cur2 < n then
    let numToCopy := min p (n - st.cur2)
    let st1 := setGpu st st.cur2BufIndex
      ((getPinned st st.cur2BufIndex).take numToCopy.toNat)
    { st1 with
      cur3 := st.cur2
      cur2 := st.cur2 + numToCopy
      cur2BufIndex := !st.cur2BufIndex }
  else st

/-- Stage 3 of a pipeline iteration: if a device page is pending, wait for
its transfer-completion event, invoke searchImpl_ on min p (n - cur3) rows
of the selected device buffer writing into the output slice at cur3, record
the execute-completion event, flip the selector and advance cur3. -/
def stageCompute {Q R : Type} (impl : List Q → List R) (n p : Int)
    (st : PipeState Q R) : PipeState Q R :=
  if st.cur3 ≠ -1 ∧ st.cur3 < n then
    let numToProcess := min p (n - st.cur3)
    let results := impl ((getGpu st st.cur3BufIndex).take numToProcess.toNat)
    { st with
      out := writeRows st.out st.cur3 results
      trace := st.trace ++ [(st.cur3, numToProcess)]
      cur3BufIndex := !st.cur3BufIndex
      cur3 := st.cur3 + numToProcess }
  else st

/-- Stage 1 of a pipeline iteration: if input rows remain, wait on the CPU
for the prior consumption of the selected pinned buffer, memcpy the next
min p (n - cur1) rows of the host batch into it, hand the page to the
transfer cursor (cur2 becomes cur1), advance cur1 and flip its selector. -/
def stageCopyIn {Q R : Type} (x : List Q) (n p : Int) (st : PipeState Q R) :
    PipeState Q R :=
  if st.cur1 < n then
    let numToCopy := min p (n - st.cur1)
    let st1 := setPinned st st.cur1BufIndex (slice x st.cur1 numToCopy)
    { st1 with
      cur2 := st.cur1
      cur1 := st.cur1 + numToCopy
      cur1BufIndex := !st.cur1BufIndex }
  else st

/-- One iteration of the pipeline while-loop, in the fixed source order:
pinned-to-device transfer first, then device compute, then host-to-pinned
copy-in. -/
def pipelineStep {Q R : Type} (impl : List Q → List R) (x : List Q)
    (n p : Int) (st : PipeState Q R) : PipeState Q R :=
  stageCopyIn x n p (stageCompute impl n p (stageTransfer n p st))

/-- The pipeline while-loop: run iterations while cur3 has not reached the
batch end.  Fuel-structural; none models a non-terminating source loop. -/
def pipelineLoop {Q R : Type} (impl : List Q → List R) (x : List Q)
    (n p : Int) : Nat → PipeState Q R → Option (PipeState Q R)
  | 0, st => if st.cur3 < n then none else some st
  | fuel + 1, st =>
    if st.cur3 < n then pipelineLoop impl x n p fuel (pipelineStep impl x n p st)
    else some st

/-- The initial pipeline state: cur1 starts at the batch head, cur2 and cur3
at -1 (nothing staged yet), all selectors at buffer 0; the staging and
device buffers hold no meaningful data. -/
def pipelineInit {Q R : Type} (out : Int → Option R) : PipeState Q R :=
  { cur1 := 0, cur1BufIndex := false
    cur2 := -1, cur2BufIndex := false
    cur3 := -1, cur3BufIndex := false
    bufPinned0 := [], bufPinned1 := []
    bufGpu0 := [], bufGpu1 := []
    out := out, trace := [] }

/-- GpuIndex::searchFromCpuPaged_: compute the buffered page size from the
pinned allocation; without pinned memory, or with a page size below one
vector, fall back to sequential unbuffered paging with a page size derived
from kNonPinnedPageSize rounded to the next highest power of two; otherwise
dispatch on the encoding (unsupported tags fail) and run the overlapped
pipeline. -/
def searchFromCpuPaged {Q R : Type} (impl : List Q → List R)
    (nt : NumericType) (n d : Int) (x : List Q)
    (pinnedAvailable : Bool) (pinnedSize : Int) (out : Int → Option R) :
    Option (Except FaissError ((Int → Option R) × List (Int × Int))) :=
  let p := pageSizeInVecs pinnedSize (get_numeric_type_size nt) d
  if pinnedAvailable = false ∨ p < 1 then
    let batchSize :=
      nextHighestPowerOf2 (kNonPinnedPageSize / (get_numeric_type_size nt * d))
    searchSeqLoop impl nt n batchSize x (n.toNat + 1) out 0
  else if supportedNumericType nt then
    (pipelineLoop impl x n p (n.toNat + 1) (pipelineInit out)).map
      (fun st => .ok (st.out, st.trace))
  else some (.error .unsupportedEncoding)

/-- GpuIndex::search: requires a trained index and a valid k; n or k equal to
zero is a no-op; output staging to the device and the final copy back are
content-preserving and modelled as identities.  A host-resident query batch
whose byte size reaches minPagedSize goes through searchFromCpuPaged_,
everything else through searchNonPaged_. -/
def search {Q R : Type} (impl : List Q → List R) (st : GpuIndexState)
    (n : Int) (nt : NumericType) (k : Int) (x : List Q)
    (xDeviceResident : Bool) (pinnedAvailable : Bool)
    (pinnedSize maxK : Int) (out : Int → Option R) :
    Option (Except FaissError ((Int → Option R) × List (Int × Int))) :=
  if st.is_trained = false then some (.error .notTrained)
  else if validateKSelect k maxK = false then some (.error .invalidK)
  else if n = 0 ∨ k = 0 then some (.ok (out, []))
  else if xDeviceResident = false ∧
      st.minPagedSize ≤ n * st.d * get_numeric_type_size nt then
    searchFromCpuPaged impl nt n st.d x pinnedAvailable pinnedSize out
  else some (searchNonPaged impl nt n x out 0)

/-- GpuIndex::assign: requires a trained index and a valid k, allocates a
throw-away distance region scoped to the call and forwards to search with a
Float32 encoding. -/
def assign {Q R : Type} (impl : List Q → List R) (st : GpuIndexState)
    (n k : Int) (x : List Q) (xDeviceResident : Bool)
    (pinnedAvailable : Bool) (pinnedSize maxK : Int) :
    Option (Except FaissError ((Int → Option R) × List (Int × Int))) :=
  if st.is_trained = false then some (.error .notTrained)
  else if validateKSelect k maxK = false then some (.error .invalidK)
  else search impl st n .float32 k x xDeviceResident pinnedAvailable
    pinnedSize maxK (fun _ => none)

/-- The number of pages of a batch of n vectors under page size p (the
ceiling of n divided by p). -/
def numPages (n p : Int) : Nat :=
  ((n + p - 1) / p).toNat

/-- The page decomposition of the first j pages of a batch of n vectors with
page size p: page i starts at row i * p and holds min p (n - i * p) rows. -/
def pageCalls (n p : Int) (j : Nat) : List (Int × Int) :=
  (List.range j).map (fun i : Nat => ((i : Int) * p, min p (n - (i : Int) * p)))

/-- Parity of a stage-run count: the buffer selector after that many
ping-pong flips from buffer 0. -/
def parity (m : Nat) : Bool :=
  decide (m % 2 = 1)

/-- The loop-head invariant of the pipeline after k iterations (k at least
1), for a batch of n rows with page size p and N pages: positions and
selectors of the three cursors, the content of the pinned buffer feeding the
next transfer, and the output and trace built from the completed pages. -/
def pipeInv {Q R : Type} (impl : List Q → List R) (x : List Q) (n p : Int)
    (out0 : Int → Option R) (N : Nat) (k : Nat) (st : PipeState Q R) : Prop :=
  st.cur1 = min ((k : Int) * p) n ∧
  st.cur2 = min (((k : Int) - 1) * p) n ∧
  st.cur3 = (if k = 1 then -1 else min (((k : Int) - 1) * p) n) ∧
  st.cur1BufIndex = parity (min k N) ∧
  st.cur2BufIndex = parity (min (k - 1) N) ∧
  st.cur3BufIndex = parity (min (k - 1) N) ∧
  (k ≤ N →
    getPinned st (parity (k - 1)) =
      slice x (((k : Int) - 1) * p) (min p (n - ((k : Int) - 1) * p))) ∧
  st.trace = pageCalls n p (min (k - 1) N) ∧
  st.out = applyCalls impl x out0 st.trace

/-- The per-row description of the output of a fully paged search of n rows:
row i holds the implementation result for query row i, rows outside the
batch are untouched. -/
def rowOut {Q R : Type} (f : Q → R) (x : List Q) (n : Int)
    (out0 : Int → Option R) : Int → Option R :=
  fun i => if 0 ≤ i ∧ i < n then (x[i.toNat]?).map f else out0 i

/-- A concrete trained index state used to instantiate theorems on explicit
inputs (dimensionality 1, paging threshold lowered to one byte so small
batches already exercise the paged path). -/
def sampleState : GpuIndexState :=
  { d := 1, metric_type := 0, metric_arg := 0, ntotal := 0, is_trained := true
    config := { use_cuvs := false, major := 6 }, minPagedSize := 1 }

/-- A concrete untrained index state. -/
def sampleUntrained : GpuIndexState :=
  { sampleState with is_trained := false }

end FaissGpu

namespace FaissGpu

/-! Basic facts. -/

theorem nextHighestPowerOf2_pos (v : Int) : 1 ≤ nextHighestPowerOf2 v := by
  have h : (0 : Int) < 2 ^ Nat.size v.toNat := pow_pos (by norm_num) _
  unfold nextHighestPowerOf2
  omega

theorem searchSeqLoop_skip {Q R : Type} (impl : List Q → List R)
    (nt : NumericType) (n bs : Int) (x : List Q)
    (hnt : supportedNumericType nt = false) :
    ∀ (fuel : Nat) (out : Int → Option R) (cur : Int),
      n ≤ cur + bs * fuel →
      searchSeqLoop impl nt n bs x fuel out cur = some (.ok (out, [])) := by
  intro fuel
  induction fuel with
  | zero =>
    intro out cur hle
    have : ¬ cur < n := by simp at hle; omega
    simp [searchSeqLoop, this]
  | succ fuel ih =>
    intro out cur hle
    by_cases hc : cur < n
    · have hrest : n ≤ (cur + bs) + bs * fuel := by
        have : bs * (fuel + 1 : Nat) = bs * fuel + bs := by
          push_cast; ring
        omega
      simp only [searchSeqLoop, if_pos hc, hnt, Bool.false_eq_true, if_neg]
      simpa using ih out (cur + bs) hrest
    · simp [searchSeqLoop, hc]

/-! Claim C10: copyFrom and copyTo exchange exactly the five metadata
fields, and the round trip restores the index. -/

/-- Claim C10: copyFrom sets exactly the five Index Metadata fields from
the mirror (configuration and paging threshold are untouched), copyTo
writes exactly those five fields of the mirror, both are pure metadata
exchanges with no device interaction (their embeddings are pure record
maps), and copyTo followed by copyFrom on the same index restores its
state. -/
theorem claim_C10 (g : GpuIndexState) (m : IndexMeta) :
    (copyFrom g m).d = m.d ∧
    (copyFrom g m).metric_type = m.metric_type ∧
    (copyFrom g m).metric_arg = m.metric_arg ∧
    (copyFrom g m).ntotal = m.ntotal ∧
    (copyFrom g m).is_trained = m.is_trained ∧
    (copyFrom g m).config = g.config ∧
    (copyFrom g m).minPagedSize = g.minPagedSize ∧
    copyTo g m = { d := g.d, metric_type := g.metric_type,
                   metric_arg := g.metric_arg, ntotal := g.ntotal,
                   is_trained := g.is_trained } ∧
    copyFrom g (copyTo g m) = g := by
  refine ⟨rfl, rfl, rfl, rfl, rfl, rfl, rfl, rfl, ?_⟩
  cases g
  rfl

/-! Claim C7: every public operation on an untrained index fails with
NotTrained before any data movement or implementation invocation. -/

/-- Claim C7: with the trained flag false, add, add_with_ids, search and
assign all fail with NotTrained, for every argument value; the error is
returned before any staging or implementation call (the result carries no
invocation trace and no state change). -/
theorem claim_C7 {Q R : Type} (impl : List Q → List R) (st : GpuIndexState)
    (h : st.is_trained = false) (n : Int) (nt : NumericType)
    (ids : Option (List Int)) (requiresIds : Bool) (k : Int) (x : List Q)
    (xDeviceResident pinnedAvailable : Bool) (pinnedSize maxK : Int)
    (out : Int → Option R) :
    add st n nt requiresIds = some (.error .notTrained) ∧
    add_with_ids st n nt ids requiresIds = some (.error .notTrained) ∧
    search impl st n nt k x xDeviceResident pinnedAvailable pinnedSize maxK
        out = some (.error .notTrained) ∧
    assign impl st n k x xDeviceResident pinnedAvailable pinnedSize maxK =
        some (.error .notTrained) := by
  refine ⟨?_, ?_, ?_, ?_⟩ <;> simp [add, add_with_ids, search, assign, h]

theorem claim_C7_witness :
    sampleUntrained.is_trained = false ∧
    (add sampleUntrained 3 .float32 true = some (.error .notTrained) ∧
     add_with_ids sampleUntrained 3 .float32 none true =
        some (.error .notTrained) ∧
     search (fun l : List Unit => l) sampleUntrained 3 .float32 2 [(), (), ()]
        false false 0 100 (fun _ => none) = some (.error .notTrained) ∧
     assign (fun l : List Unit => l) sampleUntrained 3 2 [(), (), ()]
        false false 0 100 = some (.error .notTrained)) :=
  ⟨rfl, claim_C7 (fun l : List Unit => l) sampleUntrained rfl 3 .float32 none
    true 2 [(), (), ()] false false 0 100 (fun _ => none)⟩

/-! Claim C6: zero-sized batches.  In the source, validateKSelect runs
before the zero-size early return, and the spec states that k equal to zero
fails with InvalidK, so a search with k zero raises InvalidK instead of
being a no-op.  The n equal to zero cases are no-op successes. -/

/-- Claim C6 counterexample: on a trained index, a search with k zero fails
with InvalidK (validateKSelect precedes the zero-size guard), contradicting
the claim that k zero returns success as a no-op. -/
theorem claim_C6_counterexample :
    search (fun l : List Unit => l) sampleState 1 .float32 0 [()]
      false false 0 100 (fun _ => none) = some (.error .invalidK) := rfl

/-- Claim C6 (amended): on a trained index with a valid neighbor count,
search with n zero returns success as a no-op, with no implementation
invocation (empty trace) and the untouched output region; insert with n
zero returns success with the state unchanged (ntotal in particular) and no
implementation invocation; search with k zero instead fails with InvalidK. -/
theorem claim_C6 {Q R : Type} (impl : List Q → List R) (st : GpuIndexState)
    (ht : st.is_trained = true) (k maxK : Int)
    (hk : validateKSelect k maxK = true) (nt : NumericType) (x : List Q)
    (xDeviceResident pinnedAvailable : Bool) (pinnedSize : Int)
    (out : Int → Option R) (ids : Option (List Int)) (requiresIds : Bool) :
    search impl st 0 nt k x xDeviceResident pinnedAvailable pinnedSize maxK
        out = some (.ok (out, [])) ∧
    add_with_ids st 0 nt ids requiresIds = some (.ok (st, [])) ∧
    search impl st 0 nt 0 x xDeviceResident pinnedAvailable pinnedSize maxK
        out = some (.error .invalidK) := by
  refine ⟨?_, ?_, ?_⟩
  · simp [search, ht, hk]
  · simp [add_with_ids, ht]
  · simp [search, ht, validateKSelect]

theorem claim_C6_witness :
    (sampleState.is_trained = true ∧ validateKSelect 2 100 = true) ∧
    (search (fun l : List Unit => l) sampleState 0 .float32 2 []
        false false 0 100 (fun _ => none) = some (.ok (fun _ => none, [])) ∧
     add_with_ids sampleState 0 .float32 none true = some (.ok (sampleState, [])) ∧
     search (fun l : List Unit => l) sampleState 0 .float32 0 []
        false false 0 100 (fun _ => none) = some (.error .invalidK)) :=
  ⟨⟨rfl, by decide⟩,
    claim_C6 (fun l : List Unit => l) sampleState rfl 2 100 (by decide)
      .float32 [] false false 0 (fun _ => none) none true⟩

/-! Claim C5: unsupported encodings at the dispatch sites.  Three insert
sites and the single-batch search site raise UnsupportedEncoding, and so
does the pinned overlapped pipeline; but the sequential unbuffered fallback
inside searchFromCpuPaged_ has dispatch arms only for the supported tags
and no failing arm, so it silently succeeds, skipping every page. -/

/-- Claim C5 counterexample: a paged search with an unsupported tag and no
pinned staging memory runs the unbuffered fallback, which silently returns
success with no implementation invocation and no output writes, instead of
raising UnsupportedEncoding. -/
theorem claim_C5_counterexample :
    searchFromCpuPaged (fun l : List Unit => l) .bfloat16 4 1
      [(), (), (), ()] false 0 (fun _ => none) =
      some (.ok (fun _ => none, [])) := by
  have hgen : ∀ bs : Int, 1 ≤ bs → (4 : Int) ≤ 0 + bs * ((5 : Nat) : Int) := by
    intro bs h1
    push_cast
    nlinarith
  have hskip := searchSeqLoop_skip (fun l : List Unit => l) .bfloat16 4
    (nextHighestPowerOf2 (kNonPinnedPageSize / (get_numeric_type_size .bfloat16 * 1)))
    [(), (), (), ()] rfl 5 (fun _ => none) 0
    (hgen _ (nextHighestPowerOf2_pos _))
  simpa [searchFromCpuPaged] using hskip

/-- Claim C5 (amended): for every tag outside the supported set, insert
paging (addPaged_), per-page insert staging (addPage_), the single-batch
search (searchNonPaged_) and the pinned overlapped pipeline each
independently raise UnsupportedEncoding; the sequential unbuffered fallback
of the paged search, however, silently succeeds with no implementation
invocation, because its dispatch has no failing arm. -/
theorem claim_C5 {Q R : Type} (impl : List Q → List R) (nt : NumericType)
    (hnt : supportedNumericType nt = false) (st : GpuIndexState)
    (n xOff : Int) (hn : 1 ≤ n) (ids : Option (List Int)) (xs x : List Q)
    (out : Int → Option R) (outStart d pinnedSize : Int)
    (hpage : 1 ≤ pageSizeInVecs pinnedSize (get_numeric_type_size nt) d) :
    addPaged st n nt ids = some (.error .unsupportedEncoding) ∧
    addPage st n xOff nt ids = .error .unsupportedEncoding ∧
    searchNonPaged impl nt n xs out outStart = .error .unsupportedEncoding ∧
    searchFromCpuPaged impl nt n d x true pinnedSize out =
        some (.error .unsupportedEncoding) ∧
    searchFromCpuPaged impl nt n d x false pinnedSize out =
        some (.ok (out, [])) := by
  have hb : nt = NumericType.bfloat16 := by
    cases nt <;> simp_all [supportedNumericType]
  subst hb
  have hn0 : ¬ (n ≤ 0) := by omega
  refine ⟨?_, rfl, rfl, ?_, ?_⟩
  · simp [addPaged, supportedNumericType, hn0]
  · have hlt : ¬ (pageSizeInVecs pinnedSize (get_numeric_type_size .bfloat16) d < 1) := by
      omega
    simp [searchFromCpuPaged, hlt, supportedNumericType]
  · have hbs := nextHighestPowerOf2_pos
      (kNonPinnedPageSize / (get_numeric_type_size .bfloat16 * d))
    have hfuel : n ≤ 0 + nextHighestPowerOf2
        (kNonPinnedPageSize / (get_numeric_type_size .bfloat16 * d)) *
          ((n.toNat + 1 : Nat) : Int) := by
      have h1 : ((n.toNat + 1 : Nat) : Int) = n + 1 := by push_cast; omega
      rw [h1]
      nlinarith
    have hskip := searchSeqLoop_skip impl .bfloat16 n
      (nextHighestPowerOf2 (kNonPinnedPageSize / (get_numeric_type_size .bfloat16 * d)))
      x rfl (n.toNat + 1) out 0 (by simpa using hfuel)
    simpa [searchFromCpuPaged] using hskip

/-! Claim C4: page-size derivation for the paged search. -/

/-- Claim C4: for a paged search with staging capacity C, dimensionality d
and element size s (the size of the given encoding), the buffered page size
pageSizeInVecs is exactly the floor of (C/2)/(s*d), characterized by the
two-sided division bound; whenever staging memory is unavailable or that
page size is below one vector, searchFromCpuPaged_ degrades to the
sequential unbuffered loop whose page size is kNonPinnedPageSize/(s*d)
rounded to the next highest power of two; and that fallback page size is
never zero vectors. -/
theorem claim_C4 (C d : Int) (nt : NumericType) (_hC : 0 ≤ C) (hd : 1 ≤ d)
    (hs : 1 ≤ get_numeric_type_size nt) :
    (pageSizeInVecs C (get_numeric_type_size nt) d *
        (get_numeric_type_size nt * d) ≤ C / 2 ∧
      C / 2 < (pageSizeInVecs C (get_numeric_type_size nt) d + 1) *
        (get_numeric_type_size nt * d)) ∧
    (∀ {Q R : Type} (impl : List Q → List R) (n : Int) (x : List Q)
        (pinnedAvailable : Bool) (out : Int → Option R),
      (pinnedAvailable = false ∨
        pageSizeInVecs C (get_numeric_type_size nt) d < 1) →
      searchFromCpuPaged impl nt n d x pinnedAvailable C out =
        searchSeqLoop impl nt n
          (nextHighestPowerOf2
            (kNonPinnedPageSize / (get_numeric_type_size nt * d)))
          x (n.toNat + 1) out 0) ∧
    1 ≤ nextHighestPowerOf2
      (kNonPinnedPageSize / (get_numeric_type_size nt * d)) := by
  have hsd : 0 < get_numeric_type_size nt * d := by positivity
  refine ⟨⟨?_, ?_⟩, ?_, nextHighestPowerOf2_pos _⟩
  · exact Int.ediv_mul_le (C / 2) (by omega)
  · exact Int.lt_ediv_add_one_mul_self (C / 2) hsd
  · intro Q R impl n x pinnedAvailable out hcond
    simp only [searchFromCpuPaged, if_pos hcond]

theorem claim_C4_witness :
    ((0 : Int) ≤ 9 ∧ (1 : Int) ≤ 2 ∧ 1 ≤ get_numeric_type_size .float16) ∧
    ((pageSizeInVecs 9 (get_numeric_type_size .float16) 2 *
        (get_numeric_type_size .float16 * 2) ≤ 9 / 2 ∧
      (9 : Int) / 2 < (pageSizeInVecs 9 (get_numeric_type_size .float16) 2 + 1) *
        (get_numeric_type_size .float16 * 2)) ∧
    (∀ {Q R : Type} (impl : List Q → List R) (n : Int) (x : List Q)
        (pinnedAvailable : Bool) (out : Int → Option R),
      (pinnedAvailable = false ∨
        pageSizeInVecs 9 (get_numeric_type_size .float16) 2 < 1) →
      searchFromCpuPaged impl .float16 n 2 x pinnedAvailable 9 out =
        searchSeqLoop impl .float16 n
          (nextHighestPowerOf2
            (kNonPinnedPageSize / (get_numeric_type_size .float16 * 2)))
          x (n.toNat + 1) out 0) ∧
    1 ≤ nextHighestPowerOf2
      (kNonPinnedPageSize / (get_numeric_type_size .float16 * 2))) :=
  ⟨⟨by decide, by decide, by decide⟩,
    claim_C4 9 2 .float16 (by decide) (by decide) (by decide)⟩

theorem addPage_ok (st : GpuIndexState) (n xOff : Int)
    (ids : Option (List Int)) {nt : NumericType}
    (hnt : supportedNumericType nt = true) :
    addPage st n xOff nt ids =
      .ok ({ st with ntotal := st.ntotal + n },
        [{ n := n, xOff := xOff,
           ids := ids.map (fun l => l.take n.toNat) }]) := by
  cases nt <;> first | rfl | simp [supportedNumericType] at hnt

theorem addPagedLoop_done (n t : Int) (nt : NumericType)
    (ids : Option (List Int)) (fuel : Nat) (st : GpuIndexState) (i : Int)
    (h : ¬ i < n) :
    addPagedLoop n t nt ids fuel st i = some (.ok (st, [])) := by
  cases fuel <;> simp [addPagedLoop, h]

theorem addPagedLoop_spec {nt : NumericType}
    (hnt : supportedNumericType nt = true) (n t : Int)
    (ids : Option (List Int)) (ht : 0 < t) :
    ∀ (fuel : Nat) (st : GpuIndexState) (i : Int),
      0 ≤ i → i < n → i % t = 0 → n - i ≤ t * fuel →
      ∃ st2 calls,
        addPagedLoop n t nt ids fuel st i = some (.ok (st2, calls)) ∧
        st2.ntotal = st.ntotal + (n - i) ∧
        calls.length = ((n - i + t - 1) / t).toNat ∧
        (calls.map (fun c => c.n)).getLast? =
          some (if n % t = 0 then t else n % t) ∧
        (∀ l, ids = some l → l.length = n.toNat →
          idsFlat calls = l.drop i.toNat) := by
  intro fuel
  induction fuel with
  | zero =>
    intro st i h0 hi hmod hfuel
    exfalso
    simp only [Nat.cast_zero, mul_zero] at hfuel
    omega
  | succ fuel ih =>
    intro st i h0 hi hmod hfuel
    have hcast : t * ((fuel + 1 : Nat) : Int) = t * (fuel : Nat) + t := by
      push_cast; ring
    by_cases hlast : i + t < n
    · -- a full tile of size t, then the rest
      have hmod2 : (i + t) % t = 0 := by
        rw [show i + t = i + 1 * t by ring, Int.add_mul_emod_self]
        exact hmod
      have hfuel2 : n - (i + t) ≤ t * (fuel : Nat) := by
        rw [hcast] at hfuel; omega
      obtain ⟨st2, calls', heq, hnto, hlen, hlast', hids⟩ :=
        ih { st with ntotal := st.ntotal + min t (n - i) } (i + t)
          (by omega) hlast hmod2 hfuel2
      have hmin : min t (n - i) = t := by omega
      refine ⟨st2,
        ({ n := min t (n - i), xOff := i,
           ids := (ids.map (fun l => l.drop i.toNat)).map
             (fun l => l.take ((min t (n - i)).toNat)) } : AddImplCall) :: calls',
        ?_, ?_, ?_, ?_, ?_⟩
      · simp only [addPagedLoop, if_pos hi, addPage_ok _ _ _ _ hnt, heq,
          List.singleton_append]
      · rw [show ({ st with ntotal := st.ntotal + min t (n - i) } :
            GpuIndexState).ntotal = st.ntotal + min t (n - i) from rfl] at hnto
        rw [hnto, hmin]
        ring
      · have hq : 0 ≤ (n - i - 1) / t := Int.ediv_nonneg (by omega) (by omega)
        have e1 : n - i + t - 1 = (n - i - 1) + 1 * t := by ring
        have e2 : n - (i + t) + t - 1 = n - i - 1 := by ring
        rw [e2] at hlen
        rw [e1, Int.add_mul_ediv_right _ _ (by omega : t ≠ 0)]
        simp only [List.length_cons, hlen]
        omega
      · rcases hm : calls'.map (fun c => c.n) with _ | ⟨b, l'⟩
        · rw [hm] at hlast'; simp at hlast'
        · rw [hm] at hlast'
          simp only [List.map_cons, hm, List.getLast?_cons_cons]
          exact hlast'
      · intro l hsome hlen'
        subst hsome
        simp only [idsFlat, Option.map_some', Option.getD_some,
          hids l rfl hlen', hmin]
        have hdd : l.drop ((i + t).toNat) = (l.drop i.toNat).drop t.toNat := by
          rw [List.drop_drop]
          congr 1
          omega
        rw [hdd, List.take_append_drop]
    · -- the final tile of size n - i
      have hmin : min t (n - i) = n - i := by omega
      refine ⟨{ st with ntotal := st.ntotal + min t (n - i) },
        [({ n := min t (n - i), xOff := i,
            ids := (ids.map (fun l => l.drop i.toNat)).map
              (fun l => l.take ((min t (n - i)).toNat)) } : AddImplCall)],
        ?_, ?_, ?_, ?_, ?_⟩
      · simp only [addPagedLoop, if_pos hi, addPage_ok _ _ _ _ hnt,
          addPagedLoop_done n t nt ids fuel _ (i + t) (by omega)]
        rw [List.append_nil]
      · simp [hmin]
      · have e1 : n - i + t - 1 = (n - i - 1) + 1 * t := by ring
        rw [e1, Int.add_mul_ediv_right _ _ (by omega : t ≠ 0),
          Int.ediv_eq_zero_of_lt (by omega) (by omega)]
        simp
      · simp only [List.map_cons, List.map_nil, List.getLast?_singleton,
          Option.some.injEq, hmin]
        obtain ⟨q, hq⟩ : t ∣ i := Int.dvd_of_emod_eq_zero hmod
        have hmodn : n % t = (n - i) % t := by
          conv_lhs => rw [show n = (n - i) + t * q by omega]
          exact Int.add_mul_emod_self_left (n - i) t q
        by_cases hat : n - i = t
        · rw [hmodn, hat, Int.emod_self, if_pos rfl]
        · rw [hmodn, Int.emod_eq_of_lt (by omega) (by omega),
            if_neg (by omega)]
      · intro l hsome hlen'
        subst hsome
        simp only [idsFlat, Option.map_some', Option.getD_some,
          List.append_nil, hmin]
        apply List.take_of_length_le
        simp only [List.length_drop]
        omega

theorem addTileSize_pos (n d s : Int) (hn : 1 ≤ n) :
    1 ≤ addTileSize n d s := by
  unfold addTileSize
  have h1 : (1 : Int) ≤ max (kAddPageSize / (d * s)) 1 := le_max_right _ _
  have h2 : (1 : Int) ≤ kSearchVecSize := by norm_num [kSearchVecSize]
  omega

theorem addPagedLoop_full {nt : NumericType}
    (hnt : supportedNumericType nt = true) (n t : Int)
    (ids : Option (List Int)) (ht : 0 < t) (st : GpuIndexState)
    (hn : 1 ≤ n) :
    ∃ st2 calls,
      addPagedLoop n t nt ids n.toNat st 0 = some (.ok (st2, calls)) ∧
      st2.ntotal = st.ntotal + n ∧
      calls.length = ((n + t - 1) / t).toNat ∧
      (calls.map (fun c => c.n)).getLast? =
        some (if n % t = 0 then t else n % t) ∧
      (∀ l, ids = some l → l.length = n.toNat → idsFlat calls = l) := by
  have hfuel : n - 0 ≤ t * (n.toNat : Int) := by
    have hc : ((n.toNat : Int)) = n := by omega
    rw [hc]
    nlinarith
  obtain ⟨st2, calls, heq, hnto, hlen, hlast, hids⟩ :=
    addPagedLoop_spec hnt n t ids ht n.toNat st 0 le_rfl (by omega)
      (Int.zero_emod t) hfuel
  refine ⟨st2, calls, heq, by omega, by simpa using hlen, hlast, ?_⟩
  intro l hsome hlen'
  simpa using hids l hsome hlen'

/-! Claim C3: insert tiling. -/

/-- Claim C3: for an insert of n vectors of a supported encoding with
element size s, when the alternative backend is not eligible and the batch
exceeds the byte threshold or the vector-count threshold, the batch is
processed in tiles of size addTileSize (the minimum of n, the page
capacity clamped to at least one vector, and the search vector bound), the
number of addImpl_ invocations equals the ceiling of n over the tile size,
and the last tile holds n mod tileSize vectors (a full tile when n divides
evenly); when the backend is eligible, tiling is bypassed and the batch is
added as a single page. -/
theorem claim_C3 (st : GpuIndexState) (n : Int) (hn : 1 ≤ n)
    (nt : NumericType) (hnt : supportedNumericType nt = true)
    (ids : Option (List Int)) :
    (should_use_cuvs st.config = false →
      (kAddPageSize < n * st.d * get_numeric_type_size nt ∨ kAddVecSize < n) →
      ∃ st2 calls,
        addPaged st n nt ids = some (.ok (st2, calls)) ∧
        calls.length =
          ((n + addTileSize n st.d (get_numeric_type_size nt) - 1) /
            addTileSize n st.d (get_numeric_type_size nt)).toNat ∧
        (calls.map (fun c => c.n)).getLast? =
          some (if n % addTileSize n st.d (get_numeric_type_size nt) = 0
            then addTileSize n st.d (get_numeric_type_size nt)
            else n % addTileSize n st.d (get_numeric_type_size nt))) ∧
    (should_use_cuvs st.config = true →
      addPaged st n nt ids = some (addPage st n 0 nt ids)) := by
  constructor
  · intro hcuvs hbig
    obtain ⟨st2, calls, heq, _, hlen, hlast, _⟩ :=
      addPagedLoop_full hnt n (addTileSize n st.d (get_numeric_type_size nt))
        ids (by have := addTileSize_pos n st.d (get_numeric_type_size nt) hn; omega)
        st hn
    refine ⟨st2, calls, ?_, hlen, hlast⟩
    simp only [addPaged, if_neg (by omega : ¬ n ≤ 0), hnt, if_pos,
      if_pos (And.intro hcuvs hbig)]
    exact heq
  · intro hcuvs
    simp only [addPaged, if_neg (by omega : ¬ n ≤ 0), hnt, if_pos]
    rw [if_neg]
    simp [hcuvs]

theorem claim_C3_witness :
    ((1 : Int) ≤ 600000 ∧ supportedNumericType .float32 = true) ∧
    ((should_use_cuvs sampleState.config = false →
      (kAddPageSize < 600000 * sampleState.d * get_numeric_type_size .float32 ∨
        kAddVecSize < 600000) →
      ∃ st2 calls,
        addPaged sampleState 600000 .float32 none = some (.ok (st2, calls)) ∧
        calls.length =
          ((600000 + addTileSize 600000 sampleState.d
              (get_numeric_type_size .float32) - 1) /
            addTileSize 600000 sampleState.d
              (get_numeric_type_size .float32)).toNat ∧
        (calls.map (fun c => c.n)).getLast? =
          some (if (600000 : Int) % addTileSize 600000 sampleState.d
              (get_numeric_type_size .float32) = 0
            then addTileSize 600000 sampleState.d
              (get_numeric_type_size .float32)
            else 600000 % addTileSize 600000 sampleState.d
              (get_numeric_type_size .float32))) ∧
    (should_use_cuvs sampleState.config = true →
      addPaged sampleState 600000 .float32 none =
        some (addPage sampleState 600000 0 .float32 none))) :=
  ⟨⟨by decide, rfl⟩, claim_C3 sampleState 600000 (by decide) .float32 rfl none⟩

/-! Claim C8: a successful insert increases ntotal by exactly n. -/

/-- Claim C8: whenever add_with_ids succeeds on a batch of n vectors (n
nonnegative), the resulting total stored vector count is the old count plus
n, across the no-op, single-page, and tiled paths alike. -/
theorem claim_C8 (st st2 : GpuIndexState) (calls : List AddImplCall)
    (n : Int) (hn : 0 ≤ n) (nt : NumericType) (ids : Option (List Int))
    (requiresIds : Bool)
    (h : add_with_ids st n nt ids requiresIds = some (.ok (st2, calls))) :
    st2.ntotal = st.ntotal + n := by
  by_cases htr : st.is_trained = false
  · simp [add_with_ids, htr] at h
  · rw [add_with_ids.eq_def, if_neg htr] at h
    by_cases hz : n = 0
    · rw [if_pos hz] at h
      simp only [Option.some.injEq, Except.ok.injEq, Prod.mk.injEq] at h
      rw [← h.1, hz]
      ring
    · rw [if_neg hz] at h
      have hn1 : 1 ≤ n := by omega
      revert h
      generalize (match ids with
        | some l => some l
        | none =>
          if requiresIds then
            some ((List.range n.toNat).map (fun i : Nat => st.ntotal + (i : Int)))
          else none : Option (List Int)) = effIds
      intro h
      by_cases hsupp : supportedNumericType nt = true
      · rw [addPaged, if_neg (by omega : ¬ n ≤ 0), if_pos hsupp] at h
        by_cases hbr : should_use_cuvs st.config = false ∧
            (kAddPageSize < n * st.d * get_numeric_type_size nt ∨
              kAddVecSize < n)
        · rw [if_pos hbr] at h
          obtain ⟨stS, callsS, heq, hnto, _, _, _⟩ :=
            addPagedLoop_full hsupp n
              (addTileSize n st.d (get_numeric_type_size nt)) effIds
              (by have := addTileSize_pos n st.d (get_numeric_type_size nt) hn1
                  omega) st hn1
          rw [heq] at h
          simp only [Option.some.injEq, Except.ok.injEq, Prod.mk.injEq] at h
          rw [← h.1]
          exact hnto
        · rw [if_neg hbr, addPage_ok _ _ _ _ hsupp] at h
          simp only [Option.some.injEq, Except.ok.injEq, Prod.mk.injEq] at h
          rw [← h.1]
      · rw [addPaged, if_neg (by omega : ¬ n ≤ 0),
          if_neg (by simpa using hsupp)] at h
        simp at h

theorem claim_C8_witness :
    (0 : Int) ≤ 3 ∧
    (add_with_ids sampleState 3 .float32 none true =
        some (.ok ({ sampleState with ntotal := 3 },
          [{ n := 3, xOff := 0, ids := some [0, 1, 2] }])) →
      ({ sampleState with ntotal := 3 } : GpuIndexState).ntotal =
        sampleState.ntotal + 3) :=
  ⟨by decide, fun h =>
    claim_C8 sampleState { sampleState with ntotal := 3 }
      [{ n := 3, xOff := 0, ids := some [0, 1, 2] }] 3 (by decide) .float32
      none true h⟩

/-! Claim C9: identifier generation and forwarding. -/

theorem addPaged_ids (st : GpuIndexState) (n : Int) (hn : 1 ≤ n)
    {nt : NumericType} (hnt : supportedNumericType nt = true) (l : List Int)
    (hl : l.length = n.toNat) :
    ∃ st2 calls,
      addPaged st n nt (some l) = some (.ok (st2, calls)) ∧
      idsFlat calls = l := by
  rw [addPaged, if_neg (by omega : ¬ n ≤ 0), if_pos hnt]
  by_cases hbr : should_use_cuvs st.config = false ∧
      (kAddPageSize < n * st.d * get_numeric_type_size nt ∨ kAddVecSize < n)
  · rw [if_pos hbr]
    obtain ⟨st2, calls, heq, _, _, _, hids⟩ :=
      addPagedLoop_full hnt n (addTileSize n st.d (get_numeric_type_size nt))
        (some l)
        (by have := addTileSize_pos n st.d (get_numeric_type_size nt) hn
            omega) st hn
    exact ⟨st2, calls, heq, hids l rfl hl⟩
  · rw [if_neg hbr, addPage_ok _ _ _ _ hnt]
    refine ⟨_, _, rfl, ?_⟩
    simp only [idsFlat, Option.map_some, Option.getD_some, List.append_nil]
    apply List.take_of_length_le
    omega

/-- Claim C9: on a trained index, when the caller passes no identifier
array and the implementation requires explicit identifiers, the
identifiers handed to the implementation (concatenated across tiles in
order) are exactly ntotal, ntotal + 1, ..., ntotal + n - 1 computed from
the count at the start of the call; when the caller passes identifiers,
they reach the implementation unchanged. -/
theorem claim_C9 (st : GpuIndexState) (ht : st.is_trained = true) (n : Int)
    (hn : 1 ≤ n) (nt : NumericType)
    (hnt : supportedNumericType nt = true) :
    (∃ st2 calls,
      add_with_ids st n nt none true = some (.ok (st2, calls)) ∧
      idsFlat calls =
        (List.range n.toNat).map (fun i : Nat => st.ntotal + (i : Int))) ∧
    (∀ l : List Int, l.length = n.toNat → ∀ requiresIds : Bool,
      ∃ st2 calls,
        add_with_ids st n nt (some l) requiresIds = some (.ok (st2, calls)) ∧
        idsFlat calls = l) := by
  constructor
  · rw [add_with_ids.eq_def, if_neg (by simp [ht]), if_neg (by omega : ¬ n = 0)]
    have hglen :
        ((List.range n.toNat).map (fun i : Nat => st.ntotal + (i : Int))).length =
          n.toNat := by rw [List.length_map, List.length_range]
    simpa using addPaged_ids st n hn hnt _ hglen
  · intro l hl requiresIds
    rw [add_with_ids.eq_def, if_neg (by simp [ht]), if_neg (by omega : ¬ n = 0)]
    exact addPaged_ids st n hn hnt l hl

theorem claim_C9_witness :
    (sampleState.is_trained = true ∧ (1 : Int) ≤ 3 ∧
      supportedNumericType .float32 = true) ∧
    ((∃ st2 calls,
      add_with_ids sampleState 3 .float32 none true = some (.ok (st2, calls)) ∧
      idsFlat calls =
        (List.range (3 : Int).toNat).map
          (fun i : Nat => sampleState.ntotal + (i : Int))) ∧
    (∀ l : List Int, l.length = (3 : Int).toNat → ∀ requiresIds : Bool,
      ∃ st2 calls,
        add_with_ids sampleState 3 .float32 (some l) requiresIds =
          some (.ok (st2, calls)) ∧
        idsFlat calls = l)) :=
  ⟨⟨rfl, by decide, rfl⟩, claim_C9 sampleState rfl 3 (by decide) .float32 rfl⟩

theorem claim_C5_witness :
    (supportedNumericType .bfloat16 = false ∧ (1 : Int) ≤ 1 ∧
      1 ≤ pageSizeInVecs 8 (get_numeric_type_size .bfloat16) 2) ∧
    (addPaged sampleState 1 .bfloat16 none =
        some (.error .unsupportedEncoding) ∧
     addPage sampleState 1 0 .bfloat16 none = .error .unsupportedEncoding ∧
     searchNonPaged (fun l : List Unit => l) .bfloat16 1 [()] (fun _ => none)
        0 = .error .unsupportedEncoding ∧
     searchFromCpuPaged (fun l : List Unit => l) .bfloat16 1 2 [()] true 8
        (fun _ => none) = some (.error .unsupportedEncoding) ∧
     searchFromCpuPaged (fun l : List Unit => l) .bfloat16 1 2 [()] false 8
        (fun _ => none) = some (.ok (fun _ => none, []))) :=
  ⟨⟨rfl, by decide, by decide⟩,
    claim_C5 (fun l : List Unit => l) .bfloat16 rfl sampleState 1 0
      (by decide) none [()] [()] (fun _ => none) 0 2 8 (by decide)⟩

/-! Projection lemmas for the pipeline buffer operations. -/

theorem setPinned_cur1 {Q R : Type} (st : PipeState Q R) (b : Bool) (v : List Q) :
    (setPinned st b v).cur1 = st.cur1 := by cases b <;> rfl

theorem setPinned_cur2 {Q R : Type} (st : PipeState Q R) (b : Bool) (v : List Q) :
    (setPinned st b v).cur2 = st.cur2 := by cases b <;> rfl

theorem setPinned_cur3 {Q R : Type} (st : PipeState Q R) (b : Bool) (v : List Q) :
    (setPinned st b v).cur3 = st.cur3 := by cases b <;> rfl

theorem setPinned_cur1BufIndex {Q R : Type} (st : PipeState Q R) (b : Bool)
    (v : List Q) : (setPinned st b v).cur1BufIndex = st.cur1BufIndex := by
  cases b <;> rfl

theorem setPinned_cur2BufIndex {Q R : Type} (st : PipeState Q R) (b : Bool)
    (v : List Q) : (setPinned st b v).cur2BufIndex = st.cur2BufIndex := by
  cases b <;> rfl

theorem setPinned_cur3BufIndex {Q R : Type} (st : PipeState Q R) (b : Bool)
    (v : List Q) : (setPinned st b v).cur3BufIndex = st.cur3BufIndex := by
  cases b <;> rfl

theorem setPinned_out {Q R : Type} (st : PipeState Q R) (b : Bool) (v : List Q) :
    (setPinned st b v).out = st.out := by cases b <;> rfl

theorem setPinned_trace {Q R : Type} (st : PipeState Q R) (b : Bool) (v : List Q) :
    (setPinned st b v).trace = st.trace := by cases b <;> rfl

theorem getGpu_setPinned {Q R : Type} (st : PipeState Q R) (b b' : Bool)
    (v : List Q) : getGpu (setPinned st b v) b' = getGpu st b' := by
  cases b <;> cases b' <;> rfl

theorem getPinned_setPinned_same {Q R : Type} (st : PipeState Q R) (b : Bool)
    (v : List Q) : getPinned (setPinned st b v) b = v := by cases b <;> rfl

theorem setGpu_cur1 {Q R : Type} (st : PipeState Q R) (b : Bool) (v : List Q) :
    (setGpu st b v).cur1 = st.cur1 := by cases b <;> rfl

theorem setGpu_cur2 {Q R : Type} (st : PipeState Q R) (b : Bool) (v : List Q) :
    (setGpu st b v).cur2 = st.cur2 := by cases b <;> rfl

theorem setGpu_cur3 {Q R : Type} (st : PipeState Q R) (b : Bool) (v : List Q) :
    (setGpu st b v).cur3 = st.cur3 := by cases b <;> rfl

theorem setGpu_cur1BufIndex {Q R : Type} (st : PipeState Q R) (b : Bool)
    (v : List Q) : (setGpu st b v).cur1BufIndex = st.cur1BufIndex := by
  cases b <;> rfl

theorem setGpu_cur2BufIndex {Q R : Type} (st : PipeState Q R) (b : Bool)
    (v : List Q) : (setGpu st b v).cur2BufIndex = st.cur2BufIndex := by
  cases b <;> rfl

theorem setGpu_cur3BufIndex {Q R : Type} (st : PipeState Q R) (b : Bool)
    (v : List Q) : (setGpu st b v).cur3BufIndex = st.cur3BufIndex := by
  cases b <;> rfl

theorem setGpu_out {Q R : Type} (st : PipeState Q R) (b : Bool) (v : List Q) :
    (setGpu st b v).out = st.out := by cases b <;> rfl

theorem setGpu_trace {Q R : Type} (st : PipeState Q R) (b : Bool) (v : List Q) :
    (setGpu st b v).trace = st.trace := by cases b <;> rfl

theorem getPinned_setGpu {Q R : Type} (st : PipeState Q R) (b b' : Bool)
    (v : List Q) : getPinned (setGpu st b v) b' = getPinned st b' := by
  cases b <;> cases b' <;> rfl

theorem getGpu_setGpu_same {Q R : Type} (st : PipeState Q R) (b : Bool)
    (v : List Q) : getGpu (setGpu st b v) b = v := by cases b <;> rfl

/-! Parity and page arithmetic. -/

theorem parity_zero : parity 0 = false := rfl

theorem parity_succ (m : Nat) : parity (m + 1) = !parity m := by
  rcases Nat.mod_two_eq_zero_or_one m with h | h <;>
    simp [parity, Nat.add_mod, h]

theorem numPages_cast (n p : Int) (hn : 1 ≤ n) (hp : 1 ≤ p) :
    ((numPages n p : Nat) : Int) = (n + p - 1) / p := by
  unfold numPages
  rw [Int.toNat_of_nonneg (Int.ediv_nonneg (by omega) (by omega))]

theorem lt_numPages_iff (n p : Int) (hn : 1 ≤ n) (hp : 1 ≤ p) (j : Nat) :
    j < numPages n p ↔ (j : Int) * p < n := by
  have hcast := numPages_cast n p hn hp
  have hj : (j < numPages n p) ↔ ((j : Int) < ((numPages n p : Nat) : Int)) := by
    exact_mod_cast Iff.rfl
  rw [hj, hcast]
  constructor
  · intro h
    have h2 : (j : Int) + 1 ≤ (n + p - 1) / p := by omega
    have h3 := (Int.le_ediv_iff_mul_le (by omega : (0 : Int) < p)).mp h2
    nlinarith
  · intro h
    have h2 : ((j : Int) + 1) * p ≤ n + p - 1 := by nlinarith
    have h3 := (Int.le_ediv_iff_mul_le (by omega : (0 : Int) < p)).mpr h2
    omega

theorem le_numPages_mul (n p : Int) (hn : 1 ≤ n) (hp : 1 ≤ p) :
    n ≤ (numPages n p : Int) * p := by
  rw [numPages_cast n p hn hp, mul_comm]
  have h := Int.ediv_add_emod (n + p - 1) p
  have h2 := Int.emod_lt_of_pos (n + p - 1) (by omega : (0 : Int) < p)
  linarith

theorem numPages_pos (n p : Int) (hn : 1 ≤ n) (hp : 1 ≤ p) :
    1 ≤ numPages n p := by
  have h := (lt_numPages_iff n p hn hp 0).mpr (by simpa using hn)
  omega

theorem numPages_le (n p : Int) (hn : 1 ≤ n) (hp : 1 ≤ p) :
    (numPages n p : Int) ≤ n := by
  rw [numPages_cast n p hn hp]
  have h : (n + p - 1) / p < n + 1 := by
    rw [Int.ediv_lt_iff_lt_mul (by omega : (0 : Int) < p)]
    nlinarith
  omega

theorem pageCalls_succ (n p : Int) (j : Nat) :
    pageCalls n p (j + 1) =
      pageCalls n p j ++ [((j : Int) * p, min p (n - (j : Int) * p))] := by
  unfold pageCalls
  rw [List.range_succ, List.map_append]
  rfl

theorem applyCalls_append {Q R : Type} (impl : List Q → List R) (x : List Q)
    (out : Int → Option R) (l1 l2 : List (Int × Int)) :
    applyCalls impl x out (l1 ++ l2) =
      applyCalls impl x (applyCalls impl x out l1) l2 := by
  unfold applyCalls
  rw [List.foldl_append]

theorem applyCalls_single {Q R : Type} (impl : List Q → List R) (x : List Q)
    (out : Int → Option R) (a c : Int) :
    applyCalls impl x out [(a, c)] = writeRows out a (impl (slice x a c)) := rfl

/-! Slice and write lemmas. -/

theorem slice_take {Q : Type} (x : List Q) (a b : Int) :
    (slice x a b).take b.toNat = slice x a b := by
  unfold slice
  rw [List.take_take, min_self]

theorem slice_length {Q : Type} (x : List Q) (a b : Int) (h0 : 0 ≤ a)
    (hb : 0 ≤ b) (h : a + b ≤ (x.length : Int)) :
    ((slice x a b).length : Int) = b := by
  unfold slice
  rw [List.length_take, List.length_drop]
  omega

theorem slice_getElem {Q : Type} (x : List Q) (a b i : Int) (h0 : 0 ≤ a)
    (hai : a ≤ i) (hib : i < a + b) :
    (slice x a b)[(i - a).toNat]? = x[i.toNat]? := by
  unfold slice
  rw [List.getElem?_take, if_pos (by omega : (i - a).toNat < b.toNat),
    List.getElem?_drop]
  congr 1
  omega

theorem writeRows_in {R : Type} (out : Int → Option R) (a : Int)
    (vals : List R) (i : Int) (h1 : a ≤ i)
    (h2 : i < a + (vals.length : Int)) :
    writeRows out a vals i = vals[(i - a).toNat]? := by
  unfold writeRows
  rw [if_pos ⟨h1, h2⟩]

theorem writeRows_out {R : Type} (out : Int → Option R) (a : Int)
    (vals : List R) (i : Int) (h : ¬ (a ≤ i ∧ i < a + (vals.length : Int))) :
    writeRows out a vals i = out i := by
  unfold writeRows
  rw [if_neg h]

/-- The effect of one page write on one output row, for a row-wise
implementation: rows of the page get their per-row result, everything else
is untouched. -/
theorem writeRows_page {Q R : Type} (f : Q → R) (impl : List Q → List R)
    (himpl : ∀ l, impl l = l.map f) (x : List Q) (n : Int)
    (hx : (x.length : Int) = n) (out : Int → Option R) (a c : Int)
    (h0 : 0 ≤ a) (hc : 0 ≤ c) (han : a + c ≤ n) (i : Int) :
    writeRows out a (impl (slice x a c)) i =
      if a ≤ i ∧ i < a + c then (x[i.toNat]?).map f else out i := by
  have hlen : ((impl (slice x a c)).length : Int) = c := by
    rw [himpl, List.length_map, slice_length x a c h0 hc (by omega)]
  by_cases hin : a ≤ i ∧ i < a + c
  · rw [writeRows_in out a _ i hin.1 (by omega), if_pos hin, himpl,
      List.getElem?_map, slice_getElem x a c i h0 hin.1 hin.2]
  · rw [writeRows_out out a _ i (by omega), if_neg hin]

/-- Replaying the first j pages of the page decomposition writes exactly the
per-row results of rows below min (j * p) n. -/
theorem applyCalls_pageCalls {Q R : Type} (f : Q → R)
    (impl : List Q → List R) (himpl : ∀ l, impl l = l.map f) (x : List Q)
    (n p : Int) (out0 : Int → Option R) (hn : 1 ≤ n) (hp : 1 ≤ p)
    (hx : (x.length : Int) = n) :
    ∀ j : Nat, j ≤ numPages n p → ∀ i : Int,
      applyCalls impl x out0 (pageCalls n p j) i =
        if 0 ≤ i ∧ i < min ((j : Int) * p) n then (x[i.toNat]?).map f
        else out0 i := by
  intro j
  induction j with
  | zero =>
    intro _ i
    rw [if_neg (by omega)]
    rfl
  | succ j ihj =>
    intro hjN i
    have hjlt : (j : Int) * p < n := by
      rw [← lt_numPages_iff n p hn hp j]
      omega
    have hjp0 : 0 ≤ (j : Int) * p := by positivity
    rw [pageCalls_succ, applyCalls_append, applyCalls_single,
      writeRows_page f impl himpl x n hx _ ((j : Int) * p)
        (min p (n - (j : Int) * p)) hjp0 (by omega) (by omega) i,
      ihj (by omega) i]
    simp only [Nat.cast_add, Nat.cast_one, add_one_mul]
    split_ifs <;> first | rfl | (exfalso; omega)

theorem searchNonPaged_ok {Q R : Type} (impl : List Q → List R)
    {nt : NumericType} (hnt : supportedNumericType nt = true) (n : Int)
    (xs : List Q) (out : Int → Option R) (outStart : Int) :
    searchNonPaged impl nt n xs out outStart =
      .ok (writeRows out outStart (impl (xs.take n.toNat)),
        [(outStart, n)]) := by
  cases nt <;> first | rfl | simp [supportedNumericType] at hnt

/-- The sequential unbuffered paging loop, for a supported encoding and a
row-wise implementation: it succeeds and writes exactly the per-row results
of the remaining rows. -/
theorem searchSeqLoop_spec {Q R : Type} (f : Q → R) (impl : List Q → List R)
    (himpl : ∀ l, impl l = l.map f) (nt : NumericType)
    (hnt : supportedNumericType nt = true) (n bs : Int) (x : List Q)
    (hbs : 1 ≤ bs) (hx : (x.length : Int) = n) :
    ∀ (fuel : Nat) (out : Int → Option R) (cur : Int), 0 ≤ cur →
      n ≤ cur + bs * fuel →
      ∃ out2 tr,
        searchSeqLoop impl nt n bs x fuel out cur = some (.ok (out2, tr)) ∧
        ∀ i, out2 i =
          if cur ≤ i ∧ i < n then (x[i.toNat]?).map f else out i := by
  intro fuel
  induction fuel with
  | zero =>
    intro out cur h0 hle
    have hnc : ¬ cur < n := by simp at hle; omega
    refine ⟨out, [], by simp [searchSeqLoop, hnc], ?_⟩
    intro i
    rw [if_neg (by omega)]
  | succ fuel ih =>
    intro out cur h0 hle
    by_cases hc : cur < n
    · have hnum1 : 1 ≤ min bs (n - cur) := by omega
      have hnonpaged := searchNonPaged_ok impl hnt (min bs (n - cur))
        (slice x cur (min bs (n - cur))) out cur
      rw [slice_take] at hnonpaged
      have hrest : n ≤ (cur + bs) + bs * fuel := by
        have hc2 : bs * ((fuel + 1 : Nat) : Int) = bs * fuel + bs := by
          push_cast; ring
        omega
      obtain ⟨out2, tr, heq, hdesc⟩ :=
        ih (writeRows out cur (impl (slice x cur (min bs (n - cur)))))
          (cur + bs) (by omega) hrest
      refine ⟨out2, (cur, min bs (n - cur)) :: tr, ?_, ?_⟩
      · simp only [searchSeqLoop, if_pos hc, hnt, if_pos, hnonpaged, heq]
        rfl
      · intro i
        rw [hdesc i,
          writeRows_page f impl himpl x n hx out cur (min bs (n - cur))
            (by omega) (by omega) (by omega) i]
        split_ifs <;> first | rfl | (exfalso; omega)
    · refine ⟨out, [], by simp [searchSeqLoop, hc], ?_⟩
      intro i
      rw [if_neg (by omega)]

/-! Characterizations of the three pipeline stages. -/

theorem stageTransfer_neg {Q R : Type} (n p : Int) (st : PipeState Q R)
    (h : ¬ (st.cur2 ≠ -1 ∧ st.cur2 < n)) : stageTransfer n p st = st := by
  unfold stageTransfer
  rw [if_neg h]

theorem stageTransfer_cur1 {Q R : Type} (n p : Int) (st : PipeState Q R) :
    (stageTransfer n p st).cur1 = st.cur1 := by
  unfold stageTransfer
  split
  · cases hbb : st.cur2BufIndex <;> simp [setGpu]
  · rfl

theorem stageTransfer_cur1BufIndex {Q R : Type} (n p : Int)
    (st : PipeState Q R) :
    (stageTransfer n p st).cur1BufIndex = st.cur1BufIndex := by
  unfold stageTransfer
  split
  · cases hbb : st.cur2BufIndex <;> simp [setGpu]
  · rfl

theorem stageTransfer_cur3BufIndex {Q R : Type} (n p : Int)
    (st : PipeState Q R) :
    (stageTransfer n p st).cur3BufIndex = st.cur3BufIndex := by
  unfold stageTransfer
  split
  · cases hbb : st.cur2BufIndex <;> simp [setGpu]
  · rfl

theorem stageTransfer_out {Q R : Type} (n p : Int) (st : PipeState Q R) :
    (stageTransfer n p st).out = st.out := by
  unfold stageTransfer
  split
  · cases hbb : st.cur2BufIndex <;> simp [setGpu]
  · rfl

theorem stageTransfer_trace {Q R : Type} (n p : Int) (st : PipeState Q R) :
    (stageTransfer n p st).trace = st.trace := by
  unfold stageTransfer
  split
  · cases hbb : st.cur2BufIndex <;> simp [setGpu]
  · rfl

theorem stageTransfer_getPinned {Q R : Type} (n p : Int) (st : PipeState Q R)
    (b' : Bool) : getPinned (stageTransfer n p st) b' = getPinned st b' := by
  unfold stageTransfer
  split
  · cases hbb : st.cur2BufIndex <;> cases b' <;> simp [setGpu, getPinned]
  · rfl

theorem stageTransfer_cur2_pos {Q R : Type} (n p : Int) (st : PipeState Q R)
    (h : st.cur2 ≠ -1 ∧ st.cur2 < n) :
    (stageTransfer n p st).cur2 = st.cur2 + min p (n - st.cur2) := by
  unfold stageTransfer
  rw [if_pos h]

theorem stageTransfer_cur3_pos {Q R : Type} (n p : Int) (st : PipeState Q R)
    (h : st.cur2 ≠ -1 ∧ st.cur2 < n) :
    (stageTransfer n p st).cur3 = st.cur2 := by
  unfold stageTransfer
  rw [if_pos h]

theorem stageTransfer_cur2BufIndex_pos {Q R : Type} (n p : Int)
    (st : PipeState Q R) (h : st.cur2 ≠ -1 ∧ st.cur2 < n) :
    (stageTransfer n p st).cur2BufIndex = !st.cur2BufIndex := by
  unfold stageTransfer
  rw [if_pos h]

theorem stageTransfer_getGpu_pos {Q R : Type} (n p : Int) (st : PipeState Q R)
    (h : st.cur2 ≠ -1 ∧ st.cur2 < n) :
    getGpu (stageTransfer n p st) st.cur2BufIndex =
      (getPinned st st.cur2BufIndex).take ((min p (n - st.cur2)).toNat) := by
  unfold stageTransfer
  rw [if_pos h]
  cases hbb : st.cur2BufIndex <;> simp [setGpu, getGpu, getPinned]

theorem stageCompute_neg {Q R : Type} (impl : List Q → List R) (n p : Int)
    (st : PipeState Q R) (h : ¬ (st.cur3 ≠ -1 ∧ st.cur3 < n)) :
    stageCompute impl n p st = st := by
  unfold stageCompute
  rw [if_neg h]

theorem stageCompute_cur1 {Q R : Type} (impl : List Q → List R) (n p : Int)
    (st : PipeState Q R) : (stageCompute impl n p st).cur1 = st.cur1 := by
  unfold stageCompute
  split <;> rfl

theorem stageCompute_cur2 {Q R : Type} (impl : List Q → List R) (n p : Int)
    (st : PipeState Q R) : (stageCompute impl n p st).cur2 = st.cur2 := by
  unfold stageCompute
  split <;> rfl

theorem stageCompute_cur1BufIndex {Q R : Type} (impl : List Q → List R)
    (n p : Int) (st : PipeState Q R) :
    (stageCompute impl n p st).cur1BufIndex = st.cur1BufIndex := by
  unfold stageCompute
  split <;> rfl

theorem stageCompute_cur2BufIndex {Q R : Type} (impl : List Q → List R)
    (n p : Int) (st : PipeState Q R) :
    (stageCompute impl n p st).cur2BufIndex = st.cur2BufIndex := by
  unfold stageCompute
  split <;> rfl

theorem stageCompute_getPinned {Q R : Type} (impl : List Q → List R)
    (n p : Int) (st : PipeState Q R) (b' : Bool) :
    getPinned (stageCompute impl n p st) b' = getPinned st b' := by
  unfold stageCompute
  split <;> cases b' <;> rfl

theorem stageCompute_getGpu {Q R : Type} (impl : List Q → List R)
    (n p : Int) (st : PipeState Q R) (b' : Bool) :
    getGpu (stageCompute impl n p st) b' = getGpu st b' := by
  unfold stageCompute
  split <;> cases b' <;> rfl

theorem stageCompute_cur3_pos {Q R : Type} (impl : List Q → List R)
    (n p : Int) (st : PipeState Q R) (h : st.cur3 ≠ -1 ∧ st.cur3 < n) :
    (stageCompute impl n p st).cur3 = st.cur3 + min p (n - st.cur3) := by
  unfold stageCompute
  rw [if_pos h]

theorem stageCompute_cur3BufIndex_pos {Q R : Type} (impl : List Q → List R)
    (n p : Int) (st : PipeState Q R) (h : st.cur3 ≠ -1 ∧ st.cur3 < n) :
    (stageCompute impl n p st).cur3BufIndex = !st.cur3BufIndex := by
  unfold stageCompute
  rw [if_pos h]

theorem stageCompute_out_pos {Q R : Type} (impl : List Q → List R)
    (n p : Int) (st : PipeState Q R) (h : st.cur3 ≠ -1 ∧ st.cur3 < n) :
    (stageCompute impl n p st).out =
      writeRows st.out st.cur3
        (impl ((getGpu st st.cur3BufIndex).take
          ((min p (n - st.cur3)).toNat))) := by
  unfold stageCompute
  rw [if_pos h]

theorem stageCompute_trace_pos {Q R : Type} (impl : List Q → List R)
    (n p : Int) (st : PipeState Q R) (h : st.cur3 ≠ -1 ∧ st.cur3 < n) :
    (stageCompute impl n p st).trace =
      st.trace ++ [(st.cur3, min p (n - st.cur3))] := by
  unfold stageCompute
  rw [if_pos h]

theorem stageCopyIn_neg {Q R : Type} (x : List Q) (n p : Int)
    (st : PipeState Q R) (h : ¬ st.cur1 < n) : stageCopyIn x n p st = st := by
  unfold stageCopyIn
  rw [if_neg h]

theorem stageCopyIn_cur3 {Q R : Type} (x : List Q) (n p : Int)
    (st : PipeState Q R) : (stageCopyIn x n p st).cur3 = st.cur3 := by
  unfold stageCopyIn
  split
  · cases hbb : st.cur1BufIndex <;> simp [setPinned]
  · rfl

theorem stageCopyIn_cur2BufIndex {Q R : Type} (x : List Q) (n p : Int)
    (st : PipeState Q R) :
    (stageCopyIn x n p st).cur2BufIndex = st.cur2BufIndex := by
  unfold stageCopyIn
  split
  · cases hbb : st.cur1BufIndex <;> simp [setPinned]
  · rfl

theorem stageCopyIn_cur3BufIndex {Q R : Type} (x : List Q) (n p : Int)
    (st : PipeState Q R) :
    (stageCopyIn x n p st).cur3BufIndex = st.cur3BufIndex := by
  unfold stageCopyIn
  split
  · cases hbb : st.cur1BufIndex <;> simp [setPinned]
  · rfl

theorem stageCopyIn_out {Q R : Type} (x : List Q) (n p : Int)
    (st : PipeState Q R) : (stageCopyIn x n p st).out = st.out := by
  unfold stageCopyIn
  split
  · cases hbb : st.cur1BufIndex <;> simp [setPinned]
  · rfl

theorem stageCopyIn_trace {Q R : Type} (x : List Q) (n p : Int)
    (st : PipeState Q R) : (stageCopyIn x n p st).trace = st.trace := by
  unfold stageCopyIn
  split
  · cases hbb : st.cur1BufIndex <;> simp [setPinned]
  · rfl

theorem stageCopyIn_getGpu {Q R : Type} (x : List Q) (n p : Int)
    (st : PipeState Q R) (b' : Bool) :
    getGpu (stageCopyIn x n p st) b' = getGpu st b' := by
  unfold stageCopyIn
  split
  · cases hbb : st.cur1BufIndex <;> cases b' <;> simp [setPinned, getGpu]
  · rfl

theorem stageCopyIn_cur1_pos {Q R : Type} (x : List Q) (n p : Int)
    (st : PipeState Q R) (h : st.cur1 < n) :
    (stageCopyIn x n p st).cur1 = st.cur1 + min p (n - st.cur1) := by
  unfold stageCopyIn
  rw [if_pos h]

theorem stageCopyIn_cur2_pos {Q R : Type} (x : List Q) (n p : Int)
    (st : PipeState Q R) (h : st.cur1 < n) :
    (stageCopyIn x n p st).cur2 = st.cur1 := by
  unfold stageCopyIn
  rw [if_pos h]

theorem stageCopyIn_cur1BufIndex_pos {Q R : Type} (x : List Q) (n p : Int)
    (st : PipeState Q R) (h : st.cur1 < n) :
    (stageCopyIn x n p st).cur1BufIndex = !st.cur1BufIndex := by
  unfold stageCopyIn
  rw [if_pos h]

theorem stageCopyIn_getPinned_pos {Q R : Type} (x : List Q) (n p : Int)
    (st : PipeState Q R) (h : st.cur1 < n) :
    getPinned (stageCopyIn x n p st) st.cur1BufIndex =
      slice x st.cur1 (min p (n - st.cur1)) := by
  unfold stageCopyIn
  rw [if_pos h]
  cases hbb : st.cur1BufIndex <;> simp [setPinned, getPinned]

/-! The pipeline loop-head invariant: establishment and preservation. -/

/-- The first loop iteration from the initial state: the transfer and
compute stages are skipped (their cursors are at -1) and the copy-in stage
stages the first page, establishing the invariant at k = 1. -/
theorem pipeInv_init_step {Q R : Type} (impl : List Q → List R) (x : List Q)
    (n p : Int) (out0 : Int → Option R) (hn : 1 ≤ n) (hp : 1 ≤ p)
    (hx : (x.length : Int) = n) :
    pipeInv impl x n p out0 (numPages n p) 1
      (pipelineStep impl x n p (pipelineInit out0)) := by
  have hN1 := numPages_pos n p hn hp
  have hskip2 : stageTransfer n p (pipelineInit (Q := Q) (R := R) out0) =
      pipelineInit out0 :=
    stageTransfer_neg n p _ (by simp [pipelineInit])
  have hskip3 : stageCompute impl n p (pipelineInit (Q := Q) out0) =
      pipelineInit out0 :=
    stageCompute_neg impl n p _ (by simp [pipelineInit])
  have hcur1 : (pipelineInit (Q := Q) (R := R) out0).cur1 = 0 := rfl
  have hguard1 : (pipelineInit (Q := Q) (R := R) out0).cur1 < n := by
    rw [hcur1]; omega
  unfold pipelineStep
  rw [hskip2, hskip3]
  refine ⟨?_, ?_, ?_, ?_, ?_, ?_, ?_, ?_, ?_⟩
  · rw [stageCopyIn_cur1_pos x n p _ hguard1, hcur1]
    simp
  · rw [stageCopyIn_cur2_pos x n p _ hguard1, hcur1]
    simp
    omega
  · rw [if_pos rfl, stageCopyIn_cur3]
    rfl
  · rw [stageCopyIn_cur1BufIndex_pos x n p _ hguard1,
      show (pipelineInit (Q := Q) (R := R) out0).cur1BufIndex = false from rfl,
      show min 1 (numPages n p) = 1 by omega]
    rfl
  · rw [stageCopyIn_cur2BufIndex,
      show min (1 - 1) (numPages n p) = 0 from by omega]
    rfl
  · rw [stageCopyIn_cur3BufIndex,
      show min (1 - 1) (numPages n p) = 0 from by omega]
    rfl
  · intro _
    have h := stageCopyIn_getPinned_pos x n p (pipelineInit (Q := Q) out0)
      hguard1
    rw [show (pipelineInit (Q := Q) (R := R) out0).cur1BufIndex = false
        from rfl, hcur1] at h
    rw [show parity (1 - 1) = false from rfl, h]
    norm_num
  · rw [stageCopyIn_trace,
      show min (1 - 1) (numPages n p) = 0 from by omega]
    rfl
  · rw [stageCopyIn_out, stageCopyIn_trace]
    rfl

/-- Preservation of the invariant by one pipeline iteration: under the
invariant at k (one more page pending), the transfer stage moves page k
from its pinned buffer to the paired device buffer, the compute stage
immediately consumes that device buffer writing the rows of page k, and the
copy-in stage stages page k+1 (when one remains), re-establishing the
invariant at k+1. -/
theorem pipeInv_step {Q R : Type} (impl : List Q → List R) (x : List Q)
    (n p : Int) (out0 : Int → Option R) (hn : 1 ≤ n) (hp : 1 ≤ p)
    (hx : (x.length : Int) = n) (k : Nat) (hk1 : 1 ≤ k)
    (hkN : k ≤ numPages n p) (st : PipeState Q R)
    (hinv : pipeInv impl x n p out0 (numPages n p) k st) :
    pipeInv impl x n p out0 (numPages n p) (k + 1)
      (pipelineStep impl x n p st) := by
  obtain ⟨h1, h2, h3, hb1, hb2, hb3, hpin, htr, hout⟩ := hinv
  have hk1c : (1 : Int) ≤ (k : Int) := by exact_mod_cast hk1
  have hkm1 : ((k - 1 : Nat) : Int) = (k : Int) - 1 := by omega
  have hminK1 : min (k - 1) (numPages n p) = k - 1 := by omega
  have hminK : min k (numPages n p) = k := by omega
  have hjlt : ((k : Int) - 1) * p < n := by
    have h := (lt_numPages_iff n p hn hp (k - 1)).mp (by omega)
    rwa [hkm1] at h
  have hA0 : 0 ≤ ((k : Int) - 1) * p := by nlinarith
  have hAp : (k : Int) * p = ((k : Int) - 1) * p + p := by ring
  have hcast1 : ((k + 1 : Nat) : Int) = (k : Int) + 1 := by omega
  have hsub : (k : Int) + 1 - 1 = (k : Int) := by ring
  have hApp : ((k : Int) + 1) * p = (k : Int) * p + p := by ring
  have hc1 : 1 ≤ min p (n - ((k : Int) - 1) * p) := by omega
  have he2 : st.cur2 = ((k : Int) - 1) * p := by rw [h2]; omega
  have hguard2 : st.cur2 ≠ -1 ∧ st.cur2 < n := by
    rw [he2]; exact ⟨by omega, by omega⟩
  have hb2' : st.cur2BufIndex = parity (k - 1) := by rw [hb2, hminK1]
  have hb3' : st.cur3BufIndex = parity (k - 1) := by rw [hb3, hminK1]
  have hpin' := hpin hkN
  -- stage 2: pinned to device transfer
  set st1 := stageTransfer n p st with hst1
  have p1_cur1 : st1.cur1 = st.cur1 := stageTransfer_cur1 n p st
  have p1_cur2 : st1.cur2 =
      ((k : Int) - 1) * p + min p (n - ((k : Int) - 1) * p) := by
    rw [hst1, stageTransfer_cur2_pos n p st hguard2, he2]
  have p1_cur3 : st1.cur3 = ((k : Int) - 1) * p := by
    rw [hst1, stageTransfer_cur3_pos n p st hguard2, he2]
  have p1_b1 : st1.cur1BufIndex = st.cur1BufIndex :=
    stageTransfer_cur1BufIndex n p st
  have p1_b2 : st1.cur2BufIndex = parity k := by
    rw [hst1, stageTransfer_cur2BufIndex_pos n p st hguard2, hb2',
      ← parity_succ, show k - 1 + 1 = k by omega]
  have p1_b3 : st1.cur3BufIndex = parity (k - 1) := by
    rw [hst1, stageTransfer_cur3BufIndex n p st, hb3']
  have p1_out : st1.out = st.out := stageTransfer_out n p st
  have p1_trace : st1.trace = st.trace := stageTransfer_trace n p st
  have p1_pin : ∀ b', getPinned st1 b' = getPinned st b' :=
    stageTransfer_getPinned n p st
  have p1_gpu : getGpu st1 (parity (k - 1)) =
      slice x (((k : Int) - 1) * p) (min p (n - ((k : Int) - 1) * p)) := by
    have h := stageTransfer_getGpu_pos n p st hguard2
    rw [hb2', he2] at h
    rw [hst1, h, hpin', slice_take]
  -- stage 3: device compute
  set st2 := stageCompute impl n p st1 with hst2
  have hguard3 : st1.cur3 ≠ -1 ∧ st1.cur3 < n := by
    rw [p1_cur3]; exact ⟨by omega, by omega⟩
  have p2_cur1 : st2.cur1 = st.cur1 := by
    rw [hst2, stageCompute_cur1, p1_cur1]
  have p2_cur2 : st2.cur2 =
      ((k : Int) - 1) * p + min p (n - ((k : Int) - 1) * p) := by
    rw [hst2, stageCompute_cur2, p1_cur2]
  have p2_cur3 : st2.cur3 =
      ((k : Int) - 1) * p + min p (n - ((k : Int) - 1) * p) := by
    rw [hst2, stageCompute_cur3_pos impl n p st1 hguard3, p1_cur3]
  have p2_b1 : st2.cur1BufIndex = st.cur1BufIndex := by
    rw [hst2, stageCompute_cur1BufIndex, p1_b1]
  have p2_b2 : st2.cur2BufIndex = parity k := by
    rw [hst2, stageCompute_cur2BufIndex, p1_b2]
  have p2_b3 : st2.cur3BufIndex = parity k := by
    rw [hst2, stageCompute_cur3BufIndex_pos impl n p st1 hguard3, p1_b3,
      ← parity_succ, show k - 1 + 1 = k by omega]
  have p2_out : st2.out = writeRows st.out (((k : Int) - 1) * p)
      (impl (slice x (((k : Int) - 1) * p)
        (min p (n - ((k : Int) - 1) * p)))) := by
    rw [hst2, stageCompute_out_pos impl n p st1 hguard3, p1_cur3, p1_b3,
      p1_gpu, slice_take, p1_out]
  have p2_trace : st2.trace = st.trace ++
      [(((k : Int) - 1) * p, min p (n - ((k : Int) - 1) * p))] := by
    rw [hst2, stageCompute_trace_pos impl n p st1 hguard3, p1_cur3, p1_trace]
  have p2_pin : ∀ b', getPinned st2 b' = getPinned st b' := by
    intro b'
    rw [hst2, stageCompute_getPinned, p1_pin]
  -- the new trace and output
  have htr2 : st2.trace = pageCalls n p k := by
    rw [p2_trace, htr, hminK1]
    have h := pageCalls_succ n p (k - 1)
    rw [show k - 1 + 1 = k by omega, hkm1] at h
    rw [h]
  have hout2 : st2.out = applyCalls impl x out0 st2.trace := by
    rw [p2_trace, p2_out, hout, applyCalls_append, applyCalls_single]
  -- stage 1: host to pinned copy-in
  refine ⟨?_, ?_, ?_, ?_, ?_, ?_, ?_, ?_, ?_⟩ <;>
    rw [show pipelineStep impl x n p st = stageCopyIn x n p st2 from rfl]
  · -- cur1
    by_cases hkn : k < numPages n p
    · have hklt : (k : Int) * p < n := by
        have h := (lt_numPages_iff n p hn hp k).mp hkn
        exact h
      have hc1' : st2.cur1 = (k : Int) * p := by rw [p2_cur1, h1]; omega
      rw [stageCopyIn_cur1_pos x n p st2 (by rw [hc1']; omega), hc1',
        hcast1, hApp]
      omega
    · have hge : n ≤ (k : Int) * p := by
        have h := (lt_numPages_iff n p hn hp k).not.mp hkn
        omega
      have hc1' : st2.cur1 = n := by rw [p2_cur1, h1]; omega
      rw [stageCopyIn_neg x n p st2 (by rw [hc1']; omega), hc1', hcast1,
        hApp]
      omega
  · -- cur2
    by_cases hkn : k < numPages n p
    · have hklt : (k : Int) * p < n := (lt_numPages_iff n p hn hp k).mp hkn
      have hc1' : st2.cur1 = (k : Int) * p := by rw [p2_cur1, h1]; omega
      rw [stageCopyIn_cur2_pos x n p st2 (by rw [hc1']; omega), hc1',
        hcast1, hsub]
      omega
    · have hge : n ≤ (k : Int) * p := by
        have h := (lt_numPages_iff n p hn hp k).not.mp hkn
        omega
      have hc1' : st2.cur1 = n := by rw [p2_cur1, h1]; omega
      rw [stageCopyIn_neg x n p st2 (by rw [hc1']; omega), p2_cur2, hcast1,
        hsub]
      omega
  · -- cur3
    rw [if_neg (by omega : ¬ k + 1 = 1), stageCopyIn_cur3, p2_cur3, hcast1,
      hsub]
    omega
  · -- cur1BufIndex
    by_cases hkn : k < numPages n p
    · have hklt : (k : Int) * p < n := (lt_numPages_iff n p hn hp k).mp hkn
      have hc1' : st2.cur1 = (k : Int) * p := by rw [p2_cur1, h1]; omega
      rw [stageCopyIn_cur1BufIndex_pos x n p st2 (by rw [hc1']; omega),
        p2_b1, hb1, hminK, show min (k + 1) (numPages n p) = k + 1 by omega,
        parity_succ]
    · have hge : n ≤ (k : Int) * p := by
        have h := (lt_numPages_iff n p hn hp k).not.mp hkn
        omega
      have hc1' : st2.cur1 = n := by rw [p2_cur1, h1]; omega
      rw [stageCopyIn_neg x n p st2 (by rw [hc1']; omega), p2_b1, hb1,
        show min (k + 1) (numPages n p) = min k (numPages n p) by omega]
  · -- cur2BufIndex
    rw [stageCopyIn_cur2BufIndex, p2_b2,
      show min (k + 1 - 1) (numPages n p) = k by omega]
  · -- cur3BufIndex
    rw [stageCopyIn_cur3BufIndex, p2_b3,
      show min (k + 1 - 1) (numPages n p) = k by omega]
  · -- pinned buffer for the next transfer
    intro hk1N
    have hkn : k < numPages n p := by omega
    have hklt : (k : Int) * p < n := (lt_numPages_iff n p hn hp k).mp hkn
    have hc1' : st2.cur1 = (k : Int) * p := by rw [p2_cur1, h1]; omega
    have h := stageCopyIn_getPinned_pos x n p st2 (by rw [hc1']; omega)
    rw [hc1', p2_b1, hb1, hminK] at h
    rw [show k + 1 - 1 = k by omega, h, hcast1, hsub]
  · -- trace
    rw [stageCopyIn_trace, htr2,
      show min (k + 1 - 1) (numPages n p) = k by omega]
  · -- output
    rw [stageCopyIn_out, stageCopyIn_trace, hout2]

/-- At the invariant index one past the page count, all three cursors have
reached the batch end, the trace is the full page decomposition and the
output is its replay. -/
theorem pipeInv_final {Q R : Type} (impl : List Q → List R) (x : List Q)
    (n p : Int) (out0 : Int → Option R) (hn : 1 ≤ n) (hp : 1 ≤ p)
    (fin : PipeState Q R)
    (hinv : pipeInv impl x n p out0 (numPages n p) (numPages n p + 1) fin) :
    fin.cur1 = n ∧ fin.cur2 = n ∧ fin.cur3 = n ∧
    fin.trace = pageCalls n p (numPages n p) ∧
    fin.out = applyCalls impl x out0 (pageCalls n p (numPages n p)) := by
  obtain ⟨h1, h2, h3, _, _, _, _, htr, hout⟩ := hinv
  have hN1 := numPages_pos n p hn hp
  have hNp := le_numPages_mul n p hn hp
  have hcast : ((numPages n p + 1 : Nat) : Int) = (numPages n p : Int) + 1 := by
    omega
  have hsub : ((numPages n p : Int) + 1 - 1) = (numPages n p : Int) := by ring
  have hmul : ((numPages n p : Int) + 1) * p = (numPages n p : Int) * p + p := by
    ring
  have htr' : fin.trace = pageCalls n p (numPages n p) := by
    rw [htr, show min (numPages n p + 1 - 1) (numPages n p) = numPages n p
      by omega]
  refine ⟨?_, ?_, ?_, htr', ?_⟩
  · rw [h1, hcast, hmul]; omega
  · rw [h2, hcast, hsub]; omega
  · rw [h3, if_neg (by omega : ¬ numPages n p + 1 = 1), hcast, hsub]; omega
  · rw [hout, htr']

/-- Running the pipeline loop from an invariant state drains the remaining
pages and returns a final state satisfying the end-of-batch invariant, for
any fuel covering the remaining iterations. -/
theorem pipeline_run {Q R : Type} (impl : List Q → List R) (x : List Q)
    (n p : Int) (out0 : Int → Option R) (hn : 1 ≤ n) (hp : 1 ≤ p)
    (hx : (x.length : Int) = n) :
    ∀ (fuel : Nat) (k : Nat) (st : PipeState Q R), 1 ≤ k →
      k ≤ numPages n p + 1 → numPages n p + 1 - k ≤ fuel →
      pipeInv impl x n p out0 (numPages n p) k st →
      ∃ fin, pipelineLoop impl x n p fuel st = some fin ∧
        pipeInv impl x n p out0 (numPages n p) (numPages n p + 1) fin := by
  intro fuel
  induction fuel with
  | zero =>
    intro k st hk1 hkN1 hfuel hinv
    have hkeq : k = numPages n p + 1 := by omega
    subst hkeq
    have hfin := pipeInv_final impl x n p out0 hn hp st hinv
    refine ⟨st, ?_, hinv⟩
    simp [pipelineLoop, hfin.2.2.1]
  | succ fuel ih =>
    intro k st hk1 hkN1 hfuel hinv
    by_cases hke : k = numPages n p + 1
    · subst hke
      have hfin := pipeInv_final impl x n p out0 hn hp st hinv
      refine ⟨st, ?_, hinv⟩
      simp [pipelineLoop, hfin.2.2.1]
    · have hkN : k ≤ numPages n p := by omega
      have hguard : st.cur3 < n := by
        obtain ⟨_, _, h3, _⟩ := hinv
        rw [h3]
        split_ifs with hj1
        · omega
        · have hjlt : ((k : Int) - 1) * p < n := by
            have h := (lt_numPages_iff n p hn hp (k - 1)).mp (by omega)
            have hkm1 : ((k - 1 : Nat) : Int) = (k : Int) - 1 := by omega
            rwa [hkm1] at h
          omega
      have hstep := pipeInv_step impl x n p out0 hn hp hx k hk1 hkN st hinv
      obtain ⟨fin, heq, hfinv⟩ :=
        ih (k + 1) (pipelineStep impl x n p st) (by omega) (by omega)
          (by omega) hstep
      refine ⟨fin, ?_, hfinv⟩
      simp only [pipelineLoop, if_pos hguard]
      exact heq

/-- A full pipeline run from the initial state, for any fuel that covers
one iteration per page plus the priming iteration. -/
theorem pipeline_master {Q R : Type} (impl : List Q → List R) (x : List Q)
    (n p : Int) (out0 : Int → Option R) (hn : 1 ≤ n) (hp : 1 ≤ p)
    (hx : (x.length : Int) = n) (fuel : Nat)
    (hfuel : numPages n p + 1 ≤ fuel) :
    ∃ fin, pipelineLoop impl x n p fuel (pipelineInit out0) = some fin ∧
      fin.cur1 = n ∧ fin.cur2 = n ∧ fin.cur3 = n ∧
      fin.trace = pageCalls n p (numPages n p) ∧
      fin.out = applyCalls impl x out0 (pageCalls n p (numPages n p)) := by
  obtain ⟨fuel', rfl⟩ : ∃ f, fuel = f + 1 := ⟨fuel - 1, by omega⟩
  have hguard : (pipelineInit (Q := Q) (R := R) out0).cur3 < n := by
    simp only [pipelineInit]
    omega
  obtain ⟨fin, heq, hinv⟩ :=
    pipeline_run impl x n p out0 hn hp hx fuel' 1
      (pipelineStep impl x n p (pipelineInit out0)) le_rfl (by omega)
      (by omega) (pipeInv_init_step impl x n p out0 hn hp hx)
  refine ⟨fin, ?_, pipeInv_final impl x n p out0 hn hp fin hinv⟩
  simp only [pipelineLoop, if_pos hguard]
  exact heq

/-- Counting over an initial segment of naturals a predicate holding at
exactly one point. -/
theorem countP_range_unique (q : Nat → Bool) :
    ∀ (m a : Nat), a < m → (∀ j, q j = true ↔ j = a) →
      (List.range m).countP q = 1 := by
  intro m
  induction m with
  | zero =>
    intro a ha
    omega
  | succ m ihm =>
    intro a ha hq
    rw [List.range_succ, List.countP_append]
    by_cases haN : a = m
    · subst haN
      have h0 : (List.range a).countP q = 0 := by
        rw [List.countP_eq_zero]
        intro j hj
        rw [List.mem_range] at hj
        rw [hq j]
        omega
      have h1 : q a = true := (hq a).mpr rfl
      rw [h0]
      simp [List.countP_cons, h1]
    · have h1 : ¬ q m = true := by rw [hq m]; omega
      rw [ihm a (by omega) hq]
      simp [List.countP_cons, h1]

/-- Every row of the batch is covered by exactly one page of the page
decomposition. -/
theorem pageCalls_countP (n p : Int) (hn : 1 ≤ n) (hp : 1 ≤ p) (i : Int)
    (h0 : 0 ≤ i) (hin : i < n) :
    (pageCalls n p (numPages n p)).countP
      (fun pc => decide (pc.1 ≤ i ∧ i < pc.1 + pc.2)) = 1 := by
  unfold pageCalls
  rw [List.countP_map]
  have hip0 : 0 ≤ i / p := Int.ediv_nonneg h0 (by omega)
  have hac : (((i / p).toNat : Nat) : Int) = i / p := by omega
  have hdml := Int.ediv_mul_le i (by omega : p ≠ 0)
  have hdlt := Int.lt_ediv_add_one_mul_self i (by omega : (0 : Int) < p)
  have hexp : (i / p + 1) * p = i / p * p + p := by ring
  apply countP_range_unique _ (numPages n p) ((i / p).toNat)
  · rw [lt_numPages_iff n p hn hp, hac]
    omega
  · intro j
    simp only [Function.comp_apply, decide_eq_true_eq]
    constructor
    · intro hj
      have hle : (j : Int) ≤ i / p :=
        (Int.le_ediv_iff_mul_le (by omega : (0 : Int) < p)).mpr hj.1
      have hexp2 : ((j : Int) + 1) * p = (j : Int) * p + p := by ring
      have hlt : i / p < (j : Int) + 1 := by
        rw [Int.ediv_lt_iff_lt_mul (by omega : (0 : Int) < p), hexp2]
        omega
      omega
    · intro hj
      subst hj
      rw [hac]
      omega

/-! Claim C2: pipeline termination, stage order, cursor discipline and
single coverage of every query. -/

/-- Claim C2: for a batch of n (at least one) rows and page size p (at
least one vector), each pipeline iteration advances its stages in the
fixed source order transfer, then compute, then copy-in; at every loop
head the cursors satisfy cur3 at most cur2 at most cur1; the loop
terminates within one iteration per page plus one priming iteration, with
all three cursors at the batch end; and the recorded searchImpl_
invocations are exactly the page decomposition, every query row being
passed to searchImpl_ exactly once. -/
theorem claim_C2 {Q R : Type} (impl : List Q → List R) (x : List Q)
    (n p : Int) (out0 : Int → Option R) (hn : 1 ≤ n) (hp : 1 ≤ p)
    (hx : (x.length : Int) = n) :
    (∀ st : PipeState Q R, pipelineStep impl x n p st =
      stageCopyIn x n p (stageCompute impl n p (stageTransfer n p st))) ∧
    (∀ j : Nat, j ≤ numPages n p + 1 →
      ((pipelineStep impl x n p)^[j] (pipelineInit out0)).cur3 ≤
          ((pipelineStep impl x n p)^[j] (pipelineInit out0)).cur2 ∧
        ((pipelineStep impl x n p)^[j] (pipelineInit out0)).cur2 ≤
          ((pipelineStep impl x n p)^[j] (pipelineInit out0)).cur1) ∧
    (∃ fin, pipelineLoop impl x n p (numPages n p + 1) (pipelineInit out0) =
        some fin ∧
      fin.cur1 = n ∧ fin.cur2 = n ∧ fin.cur3 = n ∧
      fin.trace = pageCalls n p (numPages n p) ∧
      (∀ i : Int, 0 ≤ i → i < n →
        fin.trace.countP (fun pc => decide (pc.1 ≤ i ∧ i < pc.1 + pc.2)) =
          1)) := by
  have hiter : ∀ j : Nat, 1 ≤ j → j ≤ numPages n p + 1 →
      pipeInv impl x n p out0 (numPages n p) j
        ((pipelineStep impl x n p)^[j] (pipelineInit out0)) := by
    intro j
    induction j with
    | zero => omega
    | succ j ihj =>
      intro _ hle
      by_cases hj0 : j = 0
      · subst hj0
        rw [Function.iterate_one]
        exact pipeInv_init_step impl x n p out0 hn hp hx
      · rw [Function.iterate_succ_apply']
        exact pipeInv_step impl x n p out0 hn hp hx j (by omega)
          (by omega) _ (ihj (by omega) (by omega))
  refine ⟨fun st => rfl, ?_, ?_⟩
  · intro j hj
    by_cases hj0 : j = 0
    · subst hj0
      simp [pipelineInit]
    · obtain ⟨h1, h2, h3, _⟩ := hiter j (by omega) hj
      have hj1c : (1 : Int) ≤ (j : Int) := by
        exact_mod_cast Nat.one_le_iff_ne_zero.mpr hj0
      have hmul : (j : Int) * p = ((j : Int) - 1) * p + p := by ring
      have h0m : 0 ≤ ((j : Int) - 1) * p := by nlinarith
      constructor
      · rw [h3, h2]
        split_ifs with hj1
        · omega
        · omega
      · rw [h2, h1]
        omega
  · obtain ⟨fin, heq, hc1, hc2, hc3, htr, _⟩ :=
      pipeline_master impl x n p out0 hn hp hx (numPages n p + 1) le_rfl
    refine ⟨fin, heq, hc1, hc2, hc3, htr, ?_⟩
    intro i h0 hin
    rw [htr]
    exact pageCalls_countP n p hn hp i h0 hin

theorem claim_C2_witness :
    ((1 : Int) ≤ 3 ∧ (1 : Int) ≤ 2 ∧
      ((([5, 6, 7] : List Int).length : Int) = 3)) ∧
    ((∀ st : PipeState Int Int,
      pipelineStep (fun l : List Int => l.map (fun q => q * 10)) ([5, 6, 7] : List Int) 3 2 st =
        stageCopyIn ([5, 6, 7] : List Int) 3 2
          (stageCompute (fun l : List Int => l.map (fun q => q * 10)) 3 2
            (stageTransfer 3 2 st))) ∧
    (∀ j : Nat, j ≤ numPages 3 2 + 1 →
      ((pipelineStep (fun l : List Int => l.map (fun q => q * 10)) ([5, 6, 7] : List Int) 3 2)^[j]
            (pipelineInit (fun _ => (none : Option Int)))).cur3 ≤
          ((pipelineStep (fun l : List Int => l.map (fun q => q * 10)) ([5, 6, 7] : List Int) 3 2)^[j]
            (pipelineInit (fun _ => (none : Option Int)))).cur2 ∧
        ((pipelineStep (fun l : List Int => l.map (fun q => q * 10)) ([5, 6, 7] : List Int) 3 2)^[j]
            (pipelineInit (fun _ => (none : Option Int)))).cur2 ≤
          ((pipelineStep (fun l : List Int => l.map (fun q => q * 10)) ([5, 6, 7] : List Int) 3 2)^[j]
            (pipelineInit (fun _ => (none : Option Int)))).cur1) ∧
    (∃ fin, pipelineLoop (fun l : List Int => l.map (fun q => q * 10)) ([5, 6, 7] : List Int) 3 2
        (numPages 3 2 + 1) (pipelineInit (fun _ => (none : Option Int))) = some fin ∧
      fin.cur1 = 3 ∧ fin.cur2 = 3 ∧ fin.cur3 = 3 ∧
      fin.trace = pageCalls 3 2 (numPages 3 2) ∧
      (∀ i : Int, 0 ≤ i → i < 3 →
        fin.trace.countP (fun pc => decide (pc.1 ≤ i ∧ i < pc.1 + pc.2)) =
          1))) :=
  ⟨⟨by decide, by decide, rfl⟩,
    claim_C2 (fun l : List Int => l.map (fun q => q * 10)) ([5, 6, 7] : List Int) 3 2
      (fun _ => (none : Option Int)) (by decide) (by decide) rfl⟩

/-! Claim C1: overlapped pipeline versus sequential unbuffered paging. -/

theorem get_numeric_type_size_pos (nt : NumericType) :
    1 ≤ get_numeric_type_size nt := by
  cases nt <;> norm_num [get_numeric_type_size]

/-- Claim C1: for a host-resident query batch whose byte size reaches the
minimum paged size (so search takes the paged path), with a row-wise
implementation, the outputs produced through the overlapped pinned-buffer
pipeline (staging memory available, page size at least one vector) are
identical, row for row, to the outputs produced through sequential
unbuffered paging (staging memory unavailable), for the same inputs. -/
theorem claim_C1 {Q R : Type} (f : Q → R) (impl : List Q → List R)
    (himpl : ∀ l, impl l = l.map f) (st : GpuIndexState)
    (ht : st.is_trained = true) (k maxK : Int)
    (hk : validateKSelect k maxK = true) (n : Int) (hn : 1 ≤ n)
    (x : List Q) (hx : (x.length : Int) = n) (_hd : 1 ≤ st.d)
    (nt : NumericType) (hnt : supportedNumericType nt = true)
    (hsize : st.minPagedSize ≤ n * st.d * get_numeric_type_size nt)
    (pinnedSize : Int)
    (hpage : 1 ≤ pageSizeInVecs pinnedSize (get_numeric_type_size nt) st.d)
    (out0 : Int → Option R) :
    ∃ out1 tr1 out2 tr2,
      search impl st n nt k x false true pinnedSize maxK out0 =
        some (.ok (out1, tr1)) ∧
      search impl st n nt k x false false 0 maxK out0 =
        some (.ok (out2, tr2)) ∧
      ∀ i, out1 i = out2 i := by
  have hk1 : 0 < k := by
    have h := of_decide_eq_true hk
    exact h.1
  have hroute : ∀ pa ps, search impl st n nt k x false pa ps maxK out0 =
      searchFromCpuPaged impl nt n st.d x pa ps out0 := by
    intro pa ps
    rw [search, if_neg (by simp [ht]), if_neg (by simp [hk]),
      if_neg (by omega : ¬ (n = 0 ∨ k = 0)), if_pos ⟨rfl, hsize⟩]
  -- the pinned overlapped pipeline run
  have hp0 : 1 ≤ pageSizeInVecs pinnedSize (get_numeric_type_size nt) st.d :=
    hpage
  have hNn : (numPages n (pageSizeInVecs pinnedSize (get_numeric_type_size nt)
      st.d) : Int) ≤ n :=
    numPages_le n _ hn hp0
  obtain ⟨fin, heq, _, _, _, _, hout⟩ :=
    pipeline_master impl x n
      (pageSizeInVecs pinnedSize (get_numeric_type_size nt) st.d) out0 hn hp0
      hx (n.toNat + 1) (by omega)
  have hrun1 : search impl st n nt k x false true pinnedSize maxK out0 =
      some (.ok (fin.out, fin.trace)) := by
    rw [hroute true pinnedSize, searchFromCpuPaged,
      if_neg (by simp; omega), if_pos hnt, heq]
    rfl
  -- the sequential unbuffered run
  have hbs := nextHighestPowerOf2_pos
    (kNonPinnedPageSize / (get_numeric_type_size nt * st.d))
  have hfuelB : n ≤ 0 + nextHighestPowerOf2
      (kNonPinnedPageSize / (get_numeric_type_size nt * st.d)) *
        ((n.toNat + 1 : Nat) : Int) := by
    have h1 : ((n.toNat + 1 : Nat) : Int) = n + 1 := by omega
    rw [h1]
    nlinarith
  obtain ⟨out2, tr2, heq2, hdesc2⟩ :=
    searchSeqLoop_spec f impl himpl nt hnt n
      (nextHighestPowerOf2
        (kNonPinnedPageSize / (get_numeric_type_size nt * st.d))) x hbs hx
      (n.toNat + 1) out0 0 le_rfl hfuelB
  have hrun2 : search impl st n nt k x false false 0 maxK out0 =
      some (.ok (out2, tr2)) := by
    rw [hroute false 0, searchFromCpuPaged, if_pos (Or.inl rfl), heq2]
  refine ⟨fin.out, fin.trace, out2, tr2, hrun1, hrun2, ?_⟩
  intro i
  have hminN : min ((numPages n (pageSizeInVecs pinnedSize
      (get_numeric_type_size nt) st.d) : Int) *
        pageSizeInVecs pinnedSize (get_numeric_type_size nt) st.d) n = n := by
    have hNp := le_numPages_mul n
      (pageSizeInVecs pinnedSize (get_numeric_type_size nt) st.d) hn hp0
    omega
  rw [hout, applyCalls_pageCalls f impl himpl x n _ out0 hn hp0 hx _ le_rfl i,
    hminN, hdesc2 i]

theorem claim_C1_witness :
    ((∀ l : List Int, (fun l : List Int => l.map (fun q => q * 10)) l =
        l.map (fun q => q * 10)) ∧
      sampleState.is_trained = true ∧
      validateKSelect 1 100 = true ∧ (1 : Int) ≤ 3 ∧
      ((([5, 6, 7] : List Int).length : Int) = 3) ∧
      (1 : Int) ≤ sampleState.d ∧
      supportedNumericType .float32 = true ∧
      sampleState.minPagedSize ≤
        3 * sampleState.d * get_numeric_type_size .float32 ∧
      1 ≤ pageSizeInVecs 8 (get_numeric_type_size .float32) sampleState.d) ∧
    (∃ out1 tr1 out2 tr2,
      search (fun l : List Int => l.map (fun q => q * 10)) sampleState 3
          .float32 1 ([5, 6, 7] : List Int) false true 8 100
          (fun _ => (none : Option Int)) = some (.ok (out1, tr1)) ∧
      search (fun l : List Int => l.map (fun q => q * 10)) sampleState 3
          .float32 1 ([5, 6, 7] : List Int) false false 0 100
          (fun _ => (none : Option Int)) = some (.ok (out2, tr2)) ∧
      ∀ i, out1 i = out2 i) :=
  ⟨⟨fun l => rfl, rfl, by decide, by decide, rfl, by decide, rfl, by decide,
      by decide⟩,
    claim_C1 (fun q : Int => q * 10)
      (fun l : List Int => l.map (fun q => q * 10)) (fun l => rfl)
      sampleState rfl 1 100 (by decide) 3 (by decide) [5, 6, 7] rfl
      (by decide) .float32 rfl (by decide) 8 (by decide)
      (fun _ => (none : Option Int))⟩

end FaissGpu
